import Mathlib

/-!
Verification of the playback timing and state-machine engine of the
conversation-replay generator (runtime logic embedded in src/generator.ts).
The runtime JavaScript is shallowly embedded: numbers become rationals,
the single-threaded timer queue becomes an explicit list of pending
timers with absolute due times, and each event handler becomes a state
transformer transcribed line by line from the source.
-/

attribute [local semireducible] Rat.add Rat.mul Rat.inv Rat.sub

namespace ConvReplay

/-! ### Word counting, JS `String.split(/\s+/).length` semantics

`"a b".split(/\s+/)` has length 2, `" a"` gives `["", "a"]` (length 2),
`""` gives `[""]` (length 1).  In every case the length is the number of
maximal whitespace runs plus one. -/

def isJsWs (c : Char) : Bool :=
  c = ' ' || c = '\t' || c = '\n' || c = '\r' || c = '\x0b' || c = '\x0c'

/-- Number of maximal whitespace runs in a character list; the Bool flag
records whether the previous character was whitespace. -/
def wsRuns : List Char → Bool → Nat
  | [], _ => 0
  | c :: rest, inRun =>
    if isJsWs c then (if inRun then 0 else 1) + wsRuns rest true
    else wsRuns rest false

/-- Length of `s.split(/\s+/)` in JavaScript. -/
def jsSplitCount (s : String) : Nat := wsRuns s.data false + 1

/-! ### Data model (validated output of the parser, serialized by stepsToJs) -/

/-- `step.type` in the generated runtime: message steps are serialized with
type "user" (left role) or "ai" (right role); annotations and transitions
keep their tags. -/
inductive StepType where
  | user | ai | annot | transition
  deriving DecidableEq, Repr

/-- A serialized step as it appears in the generated `scenarios` object. -/
structure Step where
  type : StepType
  plainText : String
  codeBlock : Option String
  footnote : Option String
  deriving DecidableEq, Repr

/-- The five timing knobs (`speedConfig` in the generated script). -/
structure SpeedConfig where
  minDelay : ℚ
  maxDelay : ℚ
  msPerWord : ℚ
  annotationMultiplier : ℚ
  upNextDelay : ℚ
  deriving DecidableEq, Repr

/-- The documented defaults (generator.ts, speedConfig initialization). -/
def defaultSpeedConfig : SpeedConfig :=
  { minDelay := 3000, maxDelay := 8000, msPerWord := 200
    annotationMultiplier := 23/20, upNextDelay := 2500 }

/-- A truthy string test (`if (step.plainText)` in JS: empty string is falsy). -/
def truthy (s : String) : Bool := s ≠ ""

/-- Word contribution of an optional field guarded by JS truthiness. -/
def optWords (o : Option String) : Nat :=
  match o with
  | some s => if truthy s then jsSplitCount s else 0
  | none => 0

/-- `calculateDelay` (generator.ts lines 1536-1556), transcribed:
word count from plainText, codeBlock (scaled by 1.3, floored) and footnote;
base clamped via `Math.max(minDelay, Math.min(maxDelay, wc * msPerWord))`;
annotations multiply the base by `annotationMultiplier` and floor;
the result is divided by the current speed. -/
def calculateDelay (cfg : SpeedConfig) (speed : ℚ) (step : Step) : ℚ :=
  let wc1 : ℚ := if truthy step.plainText then (jsSplitCount step.plainText : ℚ) else 0
  let wc2 : ℚ :=
    match step.codeBlock with
    | some cb => if truthy cb then (((jsSplitCount cb : ℚ) * (13/10)).floor : ℚ) else 0
    | none => 0
  let wc3 : ℚ := (optWords step.footnote : ℚ)
  let wordCount : ℚ := wc1 + wc2 + wc3
  let baseDelay : ℚ := max cfg.minDelay (min cfg.maxDelay (wordCount * cfg.msPerWord))
  let baseDelay : ℚ :=
    if step.type = StepType.annot then ((baseDelay * cfg.annotationMultiplier).floor : ℚ)
    else baseDelay
  baseDelay / speed

/-- Modelled from the spec (section 4.1 contract), for the refinement claim:
word count of content (0 for empty), plus `floor(wordCount(codeBlock) * 1.3)`
if present, plus word count of footnote if present; base =
`clamp(wordCount * msPerWord, minDelay, maxDelay)` (written here as
`min maxDelay (max minDelay x)`); annotations multiply by
`annotationMultiplier` rounded down; final result divided by the multiplier. -/
def calculateDelaySpec (cfg : SpeedConfig) (speed : ℚ) (step : Step) : ℚ :=
  let wcContent : ℚ := if step.plainText = "" then 0 else (jsSplitCount step.plainText : ℚ)
  let wcCode : ℚ :=
    match step.codeBlock with
    | some cb => (((if cb = "" then 0 else (jsSplitCount cb : ℚ)) * (13/10)).floor : ℚ)
    | none => 0
  let wcFoot : ℚ :=
    match step.footnote with
    | some fn => if fn = "" then 0 else (jsSplitCount fn : ℚ)
    | none => 0
  let wordCount : ℚ := wcContent + wcCode + wcFoot
  let base : ℚ := min cfg.maxDelay (max cfg.minDelay (wordCount * cfg.msPerWord))
  let base : ℚ :=
    if step.type = StepType.annot then ((base * cfg.annotationMultiplier).floor : ℚ)
    else base
  base / speed

/-! ### Scenario data and the runtime environment

`scenarios`/`scenarioOrder`/`autoAdvance`/`hasMultipleScenarios` are emitted
at generation time (generator.ts lines 1384-1387, 1474-1487); scenario order
is the declared order `demo.scenarios.map(s => s.id)`. -/

structure Scenario where
  id : String
  title : String
  steps : List Step
  deriving DecidableEq, Repr

structure Demo where
  scenarios : List Scenario
  autoAdvance : Bool
  cfg : SpeedConfig
  prefersReducedMotion : Bool
  deriving DecidableEq, Repr

def scenarioOrder (d : Demo) : List String := d.scenarios.map Scenario.id

def hasMultipleScenarios (d : Demo) : Bool := decide (1 < d.scenarios.length)

/-- `scenarios[id]` lookup.  In the generated object, ids are unique, so the
first match is the scenario; an unknown id would crash the script, and is
excluded by the event guards and the validity invariant. -/
def findScenario (d : Demo) (id : String) : Option Scenario :=
  d.scenarios.find? (fun sc => sc.id = id)

/-- `getSteps()`: the default `[]` is never exercised for reachable states
(the current scenario id is always valid). -/
def getStepsOf (d : Demo) (id : String) : List Step :=
  (findScenario d id).elim [] Scenario.steps

/-- Placeholder used where the script would dereference `steps[0]` of an
empty list (a crash, excluded by the data-model invariant that every
scenario has a non-empty step sequence). -/
def dummyStep : Step := ⟨StepType.transition, "", none, none⟩

/-! ### Timers

`setTimeout` calls are modelled as pending timers with a fresh id, an
absolute due time, and the callback they run.  `animationTimeout` stores the
id of the last reveal/up-next timer (the script keeps fired ids around as
stale values, so the stored id need not be pending). -/

inductive TimerCb where
  /-- the `setTimeout(showNextStep, delay)` reveal timeout -/
  | showNext
  /-- the outer `advanceToNextScenario` up-next timeout (stored in
  `animationTimeout`), carrying the next scenario id -/
  | upNext (nextId : String)
  /-- the inner anonymous 300 ms fade timeout of `advanceToNextScenario` -/
  | advFade (nextId : String)
  /-- the anonymous 300 ms fade timeout of `switchTab`, carrying the target
  id and the remembered `wasPlaying` -/
  | tabFade (targetId : String) (wasPlaying : Bool)
  deriving DecidableEq, Repr

structure Timer where
  tid : Nat
  due : ℚ
  cb : TimerCb
  deriving DecidableEq, Repr

/-! ### Controller runtime state (generator.ts lines 1489-1522) -/

structure CState where
  currentScenario : String
  currentStepIndex : Nat
  isPlaying : Bool
  isPaused : Bool
  hasStarted : Bool
  speed : ℚ
  currentStepBaseDelay : ℚ
  animationTimeout : Option Nat
  /-- timer visual subsystem: `timerStartTime`, `timerDuration`, and whether
  the countdown is running (the `active` class / animation frame loop) -/
  timerStartTime : ℚ
  timerDuration : ℚ
  timerActive : Bool
  /-- environment: current wall-clock time and the platform timer queue -/
  now : ℚ
  pending : List Timer
  nextTid : Nat
  /-- `playOverlay.classList.contains('hidden')` -/
  overlayHidden : Bool
  /-- `chatContainer.classList.contains('fading')` -/
  fading : Bool
  /-- `playPauseBtn.disabled`, as last set by `updateButtonStates` -/
  playBtnDisabled : Bool
  /-- `chatMessages.children.length` -/
  messagesCount : Nat
  /-- observable trace: each step element appended to the chat container,
  as (scenario id, step index), in order of appearance -/
  revealed : List (String × Nat)
  deriving DecidableEq, Repr

def getSteps (d : Demo) (s : CState) : List Step := getStepsOf d s.currentScenario

/-! ### Primitive effects -/

/-- `startTimer(duration)` (visual subsystem only). -/
def startTimer (s : CState) (duration : ℚ) : CState :=
  { s with timerDuration := duration, timerStartTime := s.now, timerActive := true }

/-- `stopTimer()` (visual subsystem only). -/
def stopTimer (s : CState) : CState := { s with timerActive := false }

/-- `clearChatMessages()`. -/
def clearChatMessages (s : CState) : CState := { s with messagesCount := 0 }

/-- `if (animationTimeout) { clearTimeout(animationTimeout); animationTimeout = null; }` -/
def clearAnimationTimeout (s : CState) : CState :=
  match s.animationTimeout with
  | some tid =>
      { s with pending := s.pending.filter (fun tm => tm.tid ≠ tid),
               animationTimeout := none }
  | none => s

/-- `setTimeout(cb, delay)`: enqueue a fresh timer due `now + delay`. -/
def setTimeoutCb (s : CState) (cb : TimerCb) (delay : ℚ) : CState :=
  { s with pending := s.pending ++ [⟨s.nextTid, s.now + delay, cb⟩],
           nextTid := s.nextTid + 1 }

/-- `animationTimeout = setTimeout(cb, delay)`. -/
def setAnimationTimeout (s : CState) (cb : TimerCb) (delay : ℚ) : CState :=
  { setTimeoutCb s cb delay with animationTimeout := some s.nextTid }

/-- `updateButtonStates()`: the play/pause button is disabled exactly when
the scenario is complete and not actively playing. -/
def updateButtonStates (d : Demo) (s : CState) : CState :=
  { s with playBtnDisabled :=
      decide ((getSteps d s).length ≤ s.currentStepIndex) && !(s.isPlaying && !s.isPaused) }

/-- Append the step element for index `idx` of the current scenario
(`createStepElement` + `appendChild`). -/
def appendStepElement (s : CState) (idx : Nat) : CState :=
  { s with messagesCount := s.messagesCount + 1,
           revealed := s.revealed ++ [(s.currentScenario, idx)] }

/-! ### Handlers (generator.ts lines 1731-2171) -/

/-- `showInitialPreview()` (lines 1731-1743). -/
def showInitialPreview (d : Demo) (s : CState) : CState :=
  let s := if 0 < (getSteps d s).length then
      { appendStepElement s 0 with currentStepIndex := 0 }
    else s
  let s := { s with overlayHidden := false, hasStarted := false }
  updateButtonStates d s

/-- `advanceToNextScenario()` (lines 1795-1848): append the "Up Next" card,
start the countdown for `upNextDelay / speed` and store that timeout. -/
def advanceToNextScenario (d : Demo) (s : CState) : CState :=
  let order := scenarioOrder d
  let currentIndex := order.indexOf s.currentScenario
  let nextIndex := (currentIndex + 1) % order.length
  let nextScenarioId := order.getD nextIndex ""
  let s := { s with messagesCount := s.messagesCount + 1 }
  let upNextDelay := d.cfg.upNextDelay / s.speed
  let s := startTimer s upNextDelay
  setAnimationTimeout s (TimerCb.upNext nextScenarioId) upNextDelay

/-- `showNextStep()` (lines 1850-1900). -/
def showNextStep (d : Demo) (s : CState) : CState :=
  let s := stopTimer s
  let steps := getSteps d s
  if steps.length ≤ s.currentStepIndex then
    if d.autoAdvance && hasMultipleScenarios d then advanceToNextScenario d s
    else updateButtonStates d { s with isPlaying := false }
  else if s.isPaused then s
  else
    let step := steps.getD s.currentStepIndex dummyStep
    let s := appendStepElement s s.currentStepIndex
    let s := { s with currentStepIndex := s.currentStepIndex + 1 }
    if s.currentStepIndex < steps.length then
      let delay := calculateDelay d.cfg s.speed step
      let s := { s with currentStepBaseDelay := delay * s.speed }
      let s := startTimer s delay
      setAnimationTimeout s TimerCb.showNext delay
    else
      if d.autoAdvance && hasMultipleScenarios d then advanceToNextScenario d s
      else updateButtonStates d { s with isPlaying := false }

/-- `play()` (lines 1902-1962). -/
def play (d : Demo) (s : CState) : CState :=
  if !s.hasStarted then
    let s := { s with overlayHidden := true, hasStarted := true,
                      isPlaying := true, isPaused := false }
    let s := updateButtonStates d s
    let steps := getSteps d s
    let firstStep := steps.getD 0 dummyStep
    let s := if s.messagesCount = 0 then appendStepElement s 0 else s
    let delay := calculateDelay d.cfg s.speed firstStep
    let s := { s with currentStepBaseDelay := delay * s.speed, currentStepIndex := 1 }
    let s := startTimer s delay
    setAnimationTimeout s TimerCb.showNext delay
  else if s.isPaused then
    let s := { s with isPaused := false }
    let s := updateButtonStates d s
    showNextStep d s
  else if s.isPlaying then s
  else
    let steps := getSteps d s
    if steps.length ≤ s.currentStepIndex then
      let s := { s with currentStepIndex := 0 }
      let s := clearChatMessages s
      let s := appendStepElement s 0
      let s := { s with currentStepIndex := 1, isPlaying := true, isPaused := false }
      let s := updateButtonStates d s
      let delay := calculateDelay d.cfg s.speed (steps.getD 0 dummyStep)
      let s := { s with currentStepBaseDelay := delay * s.speed }
      let s := startTimer s delay
      setAnimationTimeout s TimerCb.showNext delay
    else
      let s := { s with isPlaying := true, isPaused := false }
      let s := updateButtonStates d s
      showNextStep d s

/-- `pause()` (lines 1964-1972). -/
def pause (d : Demo) (s : CState) : CState :=
  let s := { s with isPaused := true }
  let s := updateButtonStates d s
  let s := stopTimer s
  clearAnimationTimeout s

/-- `switchToScenario(scenarioId)` (lines 1745-1776).  Its only caller,
`reset()`, passes no `withFade`, so the fade branch is dead code and the
immediate `doSwitch()` path is transcribed. -/
def switchToScenario (d : Demo) (s : CState) (scenarioId : String) : CState :=
  let s := stopTimer s
  let s := clearAnimationTimeout s
  let s := { s with currentScenario := scenarioId, currentStepIndex := 0,
                    isPlaying := false, isPaused := false, hasStarted := false }
  let s := clearChatMessages s
  showInitialPreview d s

/-- `reset()` (lines 1974-1976). -/
def reset (d : Demo) (s : CState) : CState := switchToScenario d s s.currentScenario

/-- `showAllInstantly()` (lines 1978-1994). -/
def showAllInstantly (d : Demo) (s : CState) : CState :=
  let steps := getSteps d s
  let s := clearChatMessages s
  let s := { s with overlayHidden := true, hasStarted := true }
  let s := { s with messagesCount := steps.length,
                    revealed := s.revealed ++
                      (List.range steps.length).map (fun i => (s.currentScenario, i)) }
  let s := { s with currentStepIndex := steps.length, isPlaying := false }
  updateButtonStates d s

/-- `switchTab(tab)` (lines 2017-2073): the synchronous part.  The state
reset happens 300 ms later in the fade callback, which does not cancel
timers armed in the meantime. -/
def switchTab (d : Demo) (s : CState) (scenarioId : String) : CState :=
  if scenarioId = s.currentScenario then s
  else
    let wasPlaying := s.isPlaying && !s.isPaused
    let s := clearAnimationTimeout s
    let s := stopTimer s
    let s := { s with fading := true }
    setTimeoutCb s (TimerCb.tabFade scenarioId wasPlaying) 300

/-- The `switchTab` fade callback (lines 2033-2072). -/
def tabFadeCb (d : Demo) (s : CState) (scenarioId : String) (wasPlaying : Bool) : CState :=
  let s := { s with currentScenario := scenarioId, currentStepIndex := 0,
                    isPlaying := false, isPaused := false, hasStarted := false }
  let s := clearChatMessages s
  let s := { s with overlayHidden := true, fading := false }
  if d.prefersReducedMotion then showAllInstantly d s
  else
    let s := showInitialPreview d s
    if wasPlaying then play d s else s

/-- The outer `advanceToNextScenario` timeout callback (lines 1823-1847
before the inner `setTimeout`): stop the countdown, fade out, and schedule
the 300 ms fade callback (not stored in `animationTimeout`). -/
def upNextCb (d : Demo) (s : CState) (nextScenarioId : String) : CState :=
  let s := stopTimer s
  let s := { s with fading := true }
  setTimeoutCb s (TimerCb.advFade nextScenarioId) 300

/-- The inner fade callback of `advanceToNextScenario` (lines 1827-1846):
switch scenario, clear content, keep the overlay hidden, and auto-play. -/
def advFadeCb (d : Demo) (s : CState) (nextScenarioId : String) : CState :=
  let s := { s with currentScenario := nextScenarioId, currentStepIndex := 0,
                    isPlaying := false, isPaused := false, hasStarted := false }
  let s := clearChatMessages s
  let s := { s with overlayHidden := true, fading := false }
  play d s

/-- The `speedSelect` change handler (lines 2147-2171). -/
def changeSpeed (d : Demo) (s : CState) (newSpeed : ℚ) : CState :=
  let oldSpeed := s.speed
  let s := { s with speed := newSpeed }
  if s.isPlaying ∧ ¬s.isPaused ∧ s.animationTimeout.isSome ∧ 0 < s.currentStepBaseDelay then
    let elapsed := s.now - s.timerStartTime
    let elapsedBase := elapsed * oldSpeed
    let remainingBase := s.currentStepBaseDelay - elapsedBase
    if 0 < remainingBase then
      let tid := s.animationTimeout.getD 0
      let s := { s with pending := s.pending.filter (fun tm => tm.tid ≠ tid) }
      let s := { s with timerDuration := s.currentStepBaseDelay / s.speed,
                        timerStartTime := s.now - elapsedBase / s.speed }
      let remainingTime := remainingBase / s.speed
      setAnimationTimeout s TimerCb.showNext remainingTime
    else s
  else s

/-- `togglePlayPause()` (lines 2110-2116). -/
def togglePlayPause (d : Demo) (s : CState) : CState :=
  if s.isPlaying && !s.isPaused then pause d s else play d s

/-! ### Event system

Single-threaded, event-driven semantics: UI events run at the current
instant; `fire` runs the pending timer with the earliest due time
(insertion order breaking ties, as the platform queue does) and advances
the clock to it; `tick` lets time pass, but never past a due timer. -/

inductive Ev where
  | tick (t : ℚ)
  | fire
  | clickPlayPause
  | clickReset
  | clickTab (id : String)
  | clickOverlay
  | changeSpeed (v : ℚ)
  deriving DecidableEq, Repr

/-- The pending timer that fires next: least due time, earliest scheduled
among equals. -/
def earliest : List Timer → Option Timer
  | [] => none
  | tm :: rest =>
    match earliest rest with
    | none => some tm
    | some tm2 => if tm2.due < tm.due then some tm2 else some tm

def runCb (d : Demo) (s : CState) : TimerCb → CState
  | TimerCb.showNext => showNextStep d s
  | TimerCb.upNext nid => upNextCb d s nid
  | TimerCb.advFade nid => advFadeCb d s nid
  | TimerCb.tabFade nid wasP => tabFadeCb d s nid wasP

/-- One event.  `none` marks an impossible event: time flowing past a due
timer, firing an empty queue, clicking a disabled play/pause button, a tab
that does not exist, or the hidden overlay. -/
def stepEv (d : Demo) (ev : Ev) (s : CState) : Option CState :=
  match ev with
  | Ev.tick t =>
      if s.now ≤ t ∧ ∀ tm ∈ s.pending, t ≤ tm.due then some { s with now := t } else none
  | Ev.fire =>
      match earliest s.pending with
      | none => none
      | some tm =>
          let s := { s with now := tm.due,
                            pending := s.pending.filter (fun x => x.tid ≠ tm.tid) }
          some (runCb d s tm.cb)
  | Ev.clickPlayPause =>
      if s.playBtnDisabled then none else some (togglePlayPause d s)
  | Ev.clickReset => some (reset d s)
  | Ev.clickTab id =>
      if (findScenario d id).isSome then some (switchTab d s id) else none
  | Ev.clickOverlay =>
      if s.overlayHidden then none
      else some (if d.prefersReducedMotion then showAllInstantly d s else play d s)
  | Ev.changeSpeed v => some (changeSpeed d s v)

def run (d : Demo) : List Ev → CState → Option CState
  | [], s => some s
  | ev :: evs, s => (stepEv d ev s).bind (run d evs)

/-- The state right after the script's variable initialization
(lines 1489-1497), before the initialization calls at lines 2252-2259. -/
def blankState (d : Demo) : CState :=
  { currentScenario := (scenarioOrder d).getD 0 ""
    currentStepIndex := 0, isPlaying := false, isPaused := false, hasStarted := false
    speed := 1, currentStepBaseDelay := 0, animationTimeout := none
    timerStartTime := 0, timerDuration := 0, timerActive := false
    now := 0, pending := [], nextTid := 0
    overlayHidden := false, fading := false, playBtnDisabled := false
    messagesCount := 0, revealed := [] }

/-- Initialization (lines 2252-2259): `showInitialPreview()`, then
`showAllInstantly()` under the reduced-motion preference. -/
def initState (d : Demo) : CState :=
  let s := showInitialPreview d (blankState d)
  if d.prefersReducedMotion then showAllInstantly d s else s

/-- Number of pending reveal (`showNextStep`) timeouts. -/
def revealCount (s : CState) : Nat :=
  (s.pending.filter (fun tm => tm.cb = TimerCb.showNext)).length

def pendingTids (s : CState) : List Nat := s.pending.map Timer.tid

/-! ### Validity of the input data

`validateSpeedConfig` (parser.ts lines 134-170) accepts any finite numbers
that are not negative, with `minDelay ≤ maxDelay`; scenarios and step lists
are validated non-empty. -/

def validSpeedConfig (cfg : SpeedConfig) : Prop :=
  0 ≤ cfg.minDelay ∧ 0 ≤ cfg.maxDelay ∧ 0 ≤ cfg.msPerWord ∧
  0 ≤ cfg.annotationMultiplier ∧ 0 ≤ cfg.upNextDelay ∧ cfg.minDelay ≤ cfg.maxDelay

def validDemo (d : Demo) : Prop :=
  d.scenarios ≠ [] ∧ ∀ sc ∈ d.scenarios, sc.steps ≠ []

/-! ### Clean traces

A trace is clean when UI events are only delivered while no fade
transition is in progress (`chatContainer` does not have the `fading`
class).  The race counterexample below shows the single-outstanding-timer
property needs this restriction. -/

def isUiEv : Ev → Bool
  | Ev.tick _ => false
  | Ev.fire => false
  | _ => true

def stepEvClean (d : Demo) (ev : Ev) (s : CState) : Option CState :=
  if isUiEv ev && s.fading then none else stepEv d ev s

def runClean (d : Demo) : List Ev → CState → Option CState
  | [], s => some s
  | ev :: evs, s => (stepEvClean d ev s).bind (runClean d evs)

/-- Conditions attached to the unique pending timer in a clean run:
reveal and up-next timeouts are the stored `animationTimeout` of an
actively playing controller outside a fade; fade timeouts run during a
fade. -/
def tmOK (s : CState) (tm : Timer) : Prop :=
  match tm.cb with
  | TimerCb.showNext =>
      s.animationTimeout = some tm.tid ∧ s.isPlaying = true ∧ s.isPaused = false ∧
      s.hasStarted = true ∧ s.fading = false
  | TimerCb.upNext _ =>
      s.animationTimeout = some tm.tid ∧ s.isPlaying = true ∧ s.isPaused = false ∧
      s.hasStarted = true ∧ s.fading = false
  | TimerCb.advFade _ => s.fading = true
  | TimerCb.tabFade _ _ => s.fading = true

/-- Inductive invariant of clean executions: pending timer ids are fresh,
at most one timer is pending and it satisfies `tmOK`, a visible overlay
means playback never started, playing implies started, paused implies
playing. -/
def CleanInv (s : CState) : Prop :=
  (∀ tm ∈ s.pending, tm.tid < s.nextTid) ∧
  (s.pending = [] ∨ ∃ tm, s.pending = [tm] ∧ tmOK s tm) ∧
  (s.overlayHidden = false → s.hasStarted = false) ∧
  (s.isPlaying = true → s.hasStarted = true) ∧
  (s.isPaused = true → s.isPlaying = true)

/-- The state-changing calls of the single-outstanding-timer property:
`pause()` (the toggle while actively playing), `reset()`, and a scenario
switch to a different tab. -/
def isCancelEv (ev : Ev) (s : CState) : Prop :=
  ev = Ev.clickReset ∨
  (∃ id, ev = Ev.clickTab id ∧ id ≠ s.currentScenario) ∨
  (ev = Ev.clickPlayPause ∧ s.isPlaying = true ∧ s.isPaused = false)

/-- Timer id `t` is spent: it is in the past of the id counter and not
pending.  Every operation preserves this (ids are never reused), so a
cancelled timer can never fire again. -/
def TidAvoid (t : Nat) (s : CState) : Prop :=
  t < s.nextTid ∧ t ∉ pendingTids s

/-! ### Step-index invariant (claim C10) -/

/-- Every scenario id carried by a pending timer callback is a real
scenario (it came from a tab or from `scenarioOrder`). -/
def ValidTargets (d : Demo) (l : List Timer) : Prop :=
  ∀ tm ∈ l, ∀ nid wasP,
    (tm.cb = TimerCb.upNext nid ∨ tm.cb = TimerCb.advFade nid ∨
      tm.cb = TimerCb.tabFade nid wasP) → (findScenario d nid).isSome

def IndexInv (d : Demo) (s : CState) : Prop :=
  (findScenario d s.currentScenario).isSome ∧
  s.currentStepIndex ≤ (getSteps d s).length ∧
  ValidTargets d s.pending

/-! ### Intermediate playing states (claim C4)

The state of an uninterrupted playback after the step at index `k` has
been revealed and the reveal of step `k + 1` is scheduled. -/

def stepDelay (d : Demo) (sc : Scenario) (k : Nat) : ℚ :=
  calculateDelay d.cfg 1 (sc.steps.getD k dummyStep)

def midState (d : Demo) (sc : Scenario) (k tid : Nat) (t0 : ℚ) : CState :=
  { currentScenario := sc.id, currentStepIndex := k + 1
    isPlaying := true, isPaused := false, hasStarted := true
    speed := 1, currentStepBaseDelay := stepDelay d sc k * 1
    animationTimeout := some tid
    timerStartTime := t0, timerDuration := stepDelay d sc k, timerActive := true
    now := t0, pending := [⟨tid, t0 + stepDelay d sc k, TimerCb.showNext⟩], nextTid := tid + 1
    overlayHidden := true, fading := false, playBtnDisabled := false
    messagesCount := k + 1
    revealed := (List.range (k + 1)).map (fun i => (sc.id, i)) }

/-! ### Concrete instances for the testable-property scenarios -/

def hiStep : Step := ⟨StepType.user, "Hi", none, none⟩

def fortyWordText : String := String.join (List.replicate 40 "word ")

def fortyStep : Step := ⟨StepType.user, fortyWordText, none, none⟩

def annotHiStep : Step := ⟨StepType.annot, "Hi", none, none⟩

/-- A configuration `validateSpeedConfig` accepts (all fields are
non-negative numbers and `minDelay ≤ maxDelay`) with
`annotationMultiplier = 0`. -/
def zeroMultConfig : SpeedConfig :=
  { minDelay := 3000, maxDelay := 8000, msPerWord := 200
    annotationMultiplier := 0, upNextDelay := 2500 }

def mkMsg (t : String) : Step := ⟨StepType.user, t, none, none⟩

def scenA : Scenario := ⟨"A", "Scenario A", [mkMsg "Hello there friend", mkMsg "Second message here"]⟩

def scenB : Scenario := ⟨"B", "Scenario B", [mkMsg "Only message"]⟩

/-- Two scenarios `[A(2 steps), B(1 step)]`, `autoAdvance = true`,
`upNextDelay = 2500` (the spec's concrete auto-advance scenario). -/
def demoAB : Demo := ⟨[scenA, scenB], true, defaultSpeedConfig, false⟩

def scenA3 : Scenario := ⟨"A", "Scenario A", [mkMsg "one one", mkMsg "two two", mkMsg "three three"]⟩

def demoRace : Demo := ⟨[scenA3, scenB], false, defaultSpeedConfig, false⟩

/-- Play, pause, switch to tab B, resume during the fade window, let the
fade fire, then start playback of B from its overlay. -/
def raceTrace : List Ev :=
  [Ev.clickOverlay, Ev.clickPlayPause, Ev.clickTab "B",
   Ev.clickPlayPause, Ev.fire, Ev.clickOverlay]

/-- A demo whose viewer prefers reduced motion. -/
def demoRM : Demo := ⟨[scenA, scenB], true, defaultSpeedConfig, true⟩

/-- A reduced-motion state with the overlay visible and no pending timers
(the state right before `showAllInstantly` during initialization). -/
def rmState : CState := showInitialPreview demoRM (blankState demoRM)

/-- A mid-playback state: base delay 3000 ms at speed 1, reveal pending at
3000, 1000 ms elapsed. -/
def playingState : CState :=
  { blankState demoAB with
      isPlaying := true, isPaused := false, hasStarted := true
      currentStepIndex := 1, speed := 1, currentStepBaseDelay := 3000
      animationTimeout := some 0
      timerStartTime := 0, timerDuration := 3000, timerActive := true
      now := 1000, pending := [⟨0, 3000, TimerCb.showNext⟩], nextTid := 1
      overlayHidden := true, messagesCount := 1, revealed := [("A", 0)] }

/-- Concrete states for the C3 witness: the state after clicking the
overlay on the two-scenario demo, and the state after then clicking
pause. -/
def c3sA : CState :=
  (runClean demoAB [Ev.clickOverlay] (initState demoAB)).getD (blankState demoAB)

def c3sB : CState :=
  (stepEv demoAB Ev.clickPlayPause c3sA).getD (blankState demoAB)

/-! ## Theorems -/

/-- The source's clamp `max minDelay (min maxDelay x)` agrees with the
spec's `clamp(x, minDelay, maxDelay)` whenever `minDelay ≤ maxDelay`. -/
theorem calcDelay_eq_spec (cfg : SpeedConfig) (m : ℚ) (step : Step)
    (h : cfg.minDelay ≤ cfg.maxDelay) :
    calculateDelay cfg m step = calculateDelaySpec cfg m step := by
  unfold calculateDelay calculateDelaySpec
  have hwc : ∀ s : String, (if truthy s then ((jsSplitCount s : ℚ)) else 0)
      = (if s = "" then 0 else ((jsSplitCount s : ℚ))) := by
    intro s
    by_cases hs : s = "" <;> simp [truthy, hs]
  have hclamp : ∀ x : ℚ, max cfg.minDelay (min cfg.maxDelay x)
      = min cfg.maxDelay (max cfg.minDelay x) := by
    intro x
    rcases le_total x cfg.minDelay with h1 | h1 <;>
      rcases le_total x cfg.maxDelay with h2 | h2 <;>
      simp [max_def, min_def] <;> split_ifs <;> linarith
  have hcode : (match step.codeBlock with
      | some cb => if truthy cb then (((jsSplitCount cb : ℚ) * (13/10)).floor : ℚ) else 0
      | none => (0:ℚ))
      = (match step.codeBlock with
      | some cb => (((if cb = "" then 0 else (jsSplitCount cb : ℚ)) * (13/10)).floor : ℚ)
      | none => (0:ℚ)) := by
    cases step.codeBlock with
    | none => rfl
    | some cb =>
        by_cases hcb : cb = "" <;> simp [truthy, hcb]
        decide
  have hfoot : ((optWords step.footnote : ℚ))
      = (match step.footnote with
      | some fn => if fn = "" then 0 else ((jsSplitCount fn : ℚ))
      | none => (0:ℚ)) := by
    cases step.footnote with
    | none => rfl
    | some fn => by_cases hfn : fn = "" <;> simp [optWords, truthy, hfn]
  simp only [hwc, hcode, hfoot, hclamp]

/-- C7: `calculateDelay` computes word count as the whitespace-split count
of the content plus `floor(1.3 * count(codeBlock))` plus `count(footnote)`,
clamps `wordCount * msPerWord` to `[minDelay, maxDelay]`, floors after the
annotation multiplier, and divides by the speed multiplier (the reference
definition, provided `minDelay ≤ maxDelay`); with the default configuration
at multiplier 1 the one-word step "Hi" yields 3000 ms and a forty-word step
yields 8000 ms. -/
theorem C7_delay_reference :
    (∀ cfg m step, cfg.minDelay ≤ cfg.maxDelay →
        calculateDelay cfg m step = calculateDelaySpec cfg m step) ∧
    calculateDelay defaultSpeedConfig 1 hiStep = 3000 ∧
    calculateDelay defaultSpeedConfig 1 fortyStep = 8000 := by
  refine ⟨fun cfg m step h => calcDelay_eq_spec cfg m step h, ?_, ?_⟩
  · decide
  · set_option maxRecDepth 200000 in decide

/-- Witness for C7: the reference equation instantiated at the default
configuration, multiplier 2, and an annotation step. -/
theorem C7_delay_reference_witness :
    defaultSpeedConfig.minDelay ≤ defaultSpeedConfig.maxDelay ∧
    calculateDelay defaultSpeedConfig 2 annotHiStep
      = calculateDelaySpec defaultSpeedConfig 2 annotHiStep :=
  ⟨by decide, C7_delay_reference.1 defaultSpeedConfig 2 annotHiStep (by decide)⟩

/-- Counterexample to C2 as stated: `validateSpeedConfig` accepts
`annotationMultiplier = 0` (it only requires non-negative numbers with
`minDelay ≤ maxDelay`), and then the content-time delay of an annotation
step is `floor(3000 * 0) = 0`, below `minDelay = 3000` (and the claimed
interval `[minDelay, maxDelay * annotationMultiplier] = [3000, 0]` is
empty). -/
theorem C2_delay_bounds_cex :
    validSpeedConfig zeroMultConfig ∧
    annotHiStep.type = StepType.annot ∧
    ¬ (zeroMultConfig.minDelay ≤ calculateDelay zeroMultConfig 1 annotHiStep * 1 ∧
       calculateDelay zeroMultConfig 1 annotHiStep * 1 ≤
         zeroMultConfig.maxDelay * zeroMultConfig.annotationMultiplier) := by
  refine ⟨⟨by decide, by decide, by decide, by decide, by decide, by decide⟩, rfl, ?_⟩
  intro h
  have := h.1
  revert this
  decide

/-- C2 (amended): for every parser-accepted configuration whose
`annotationMultiplier` is at least 1 and whose `minDelay` is an integer,
every step and every positive speed multiplier `m`,
`calculateDelay(step) * m` (the content-time delay) lies in
`[minDelay, maxDelay]` for non-annotation steps and in
`[minDelay, maxDelay * annotationMultiplier]` for annotation steps. -/
theorem C2_delay_bounds (cfg : SpeedConfig) (m : ℚ) (step : Step)
    (hv : validSpeedConfig cfg) (hm : 0 < m)
    (ham : 1 ≤ cfg.annotationMultiplier) (hmin : ∃ n : ℤ, cfg.minDelay = (n : ℚ)) :
    (step.type ≠ StepType.annot →
      cfg.minDelay ≤ calculateDelay cfg m step * m ∧
      calculateDelay cfg m step * m ≤ cfg.maxDelay) ∧
    (step.type = StepType.annot →
      cfg.minDelay ≤ calculateDelay cfg m step * m ∧
      calculateDelay cfg m step * m ≤ cfg.maxDelay * cfg.annotationMultiplier) := by
  obtain ⟨hmin0, hmax0, hms, ham0, hup, hminmax⟩ := hv
  set w : ℚ := (if truthy step.plainText then ((jsSplitCount step.plainText : ℚ)) else 0) +
    (match step.codeBlock with
      | some cb => if truthy cb then (((jsSplitCount cb : ℚ) * (13/10)).floor : ℚ) else 0
      | none => (0:ℚ)) + ((optWords step.footnote : ℚ)) with hw
  set B : ℚ := max cfg.minDelay (min cfg.maxDelay (w * cfg.msPerWord)) with hB
  have hcd : calculateDelay cfg m step
      = (if step.type = StepType.annot
          then ((B * cfg.annotationMultiplier).floor : ℚ) else B) / m :=
    rfl
  have hBlo : cfg.minDelay ≤ B := le_max_left _ _
  have hBhi : B ≤ cfg.maxDelay := max_le hminmax (min_le_left _ _)
  have hB0 : 0 ≤ B := le_trans hmin0 hBlo
  constructor
  · intro hna
    rw [hcd, if_neg hna, div_mul_cancel₀ _ (ne_of_gt hm)]
    exact ⟨hBlo, hBhi⟩
  · intro ha
    rw [hcd, if_pos ha, div_mul_cancel₀ _ (ne_of_gt hm)]
    obtain ⟨n, hn⟩ := hmin
    have hfl : ((B * cfg.annotationMultiplier).floor : ℚ) ≤ B * cfg.annotationMultiplier :=
      Rat.le_floor.mp (le_refl _)
    constructor
    · rw [hn]
      have : (n : ℚ) ≤ B * cfg.annotationMultiplier := by
        calc (n : ℚ) = cfg.minDelay := hn.symm
        _ ≤ B := hBlo
        _ ≤ B * cfg.annotationMultiplier := le_mul_of_one_le_right hB0 ham
      exact_mod_cast Rat.le_floor.mpr this
    · calc ((B * cfg.annotationMultiplier).floor : ℚ) ≤ B * cfg.annotationMultiplier := hfl
        _ ≤ cfg.maxDelay * cfg.annotationMultiplier :=
          mul_le_mul_of_nonneg_right hBhi ham0

/-- Witness for C2 (amended), at the default configuration, multiplier 2,
and an annotation step. -/
theorem C2_delay_bounds_witness :
    defaultSpeedConfig.minDelay ≤ calculateDelay defaultSpeedConfig 2 annotHiStep * 2 ∧
    calculateDelay defaultSpeedConfig 2 annotHiStep * 2 ≤
      defaultSpeedConfig.maxDelay * defaultSpeedConfig.annotationMultiplier :=
  (C2_delay_bounds defaultSpeedConfig 2 annotHiStep
    ⟨by decide, by decide, by decide, by decide, by decide, by decide⟩
    (by decide) (by decide) ⟨3000, by decide⟩).2 rfl

/-- C1: a speed change from `m1` to `m2` while a reveal with base delay `D`
is in flight after elapsed time `t` (with `t * m1 < D`) removes the stored
reveal timeout, schedules a new reveal `(D - t * m1) / m2` later (so the
total wall-clock time from the step's start `timerStartTime` to the new due
time is `t + (D - t * m1) / m2`), and the countdown's progress fraction
`elapsed / timerDuration` is unchanged at the instant of the change. -/
theorem C1_speed_change_continuity (d : Demo) (s : CState) (m2 : ℚ) (tm : Timer)
    (hplay : s.isPlaying = true) (hpause : s.isPaused = false)
    (hstored : s.animationTimeout = some tm.tid)
    (hmem : tm ∈ s.pending) (hcb : tm.cb = TimerCb.showNext)
    (hfresh : tm.tid < s.nextTid)
    (hD : 0 < s.currentStepBaseDelay)
    (hdur : s.timerDuration = s.currentStepBaseDelay / s.speed)
    (hm1 : 0 < s.speed) (hm2 : 0 < m2)
    (hlt : (s.now - s.timerStartTime) * s.speed < s.currentStepBaseDelay) :
    ∃ s', stepEv d (Ev.changeSpeed m2) s = some s' ∧
      tm.tid ∉ pendingTids s' ∧
      s'.pending = s.pending.filter (fun x => x.tid ≠ tm.tid) ++
        [⟨s.nextTid,
          s.now + (s.currentStepBaseDelay - (s.now - s.timerStartTime) * s.speed) / m2,
          TimerCb.showNext⟩] ∧
      s'.animationTimeout = some s.nextTid ∧
      (s.now + (s.currentStepBaseDelay - (s.now - s.timerStartTime) * s.speed) / m2)
          - s.timerStartTime
        = (s.now - s.timerStartTime) +
          (s.currentStepBaseDelay - (s.now - s.timerStartTime) * s.speed) / m2 ∧
      (s'.now - s'.timerStartTime) / s'.timerDuration
        = (s.now - s.timerStartTime) / s.timerDuration := by
  have hst : stepEv d (Ev.changeSpeed m2) s = some (changeSpeed d s m2) := rfl
  refine ⟨changeSpeed d s m2, hst, ?_⟩
  unfold changeSpeed
  dsimp only
  split_ifs with h1 h2
  · refine ⟨?_, ?_, ?_, ?_, ?_⟩
    · intro hx
      simp only [pendingTids, setAnimationTimeout, setTimeoutCb, hstored, Option.getD_some,
        List.map_append, List.mem_append, List.map_cons, List.map_nil,
        List.mem_singleton, List.mem_map, List.mem_filter] at hx
      rcases hx with ⟨x, ⟨hxmem, hxne⟩, hxtid⟩ | hx
      · rw [hxtid] at hxne
        simp at hxne
      · omega
    · simp [setAnimationTimeout, setTimeoutCb, hstored]
    · simp [setAnimationTimeout, setTimeoutCb]
    · ring
    · rw [hdur]
      simp only [setAnimationTimeout, setTimeoutCb]
      have hDne : s.currentStepBaseDelay ≠ 0 := ne_of_gt hD
      have hm1ne : s.speed ≠ 0 := ne_of_gt hm1
      have hm2ne : m2 ≠ 0 := ne_of_gt hm2
      field_simp
  · exfalso
    apply h2
    linarith
  · exfalso
    apply h1
    exact ⟨by simp [hplay], by simp [hpause], by simp [hstored], hD⟩

/-- Witness for C1: base delay 3000 at speed 1, change to speed 2 after
1000 ms elapsed. -/
theorem C1_speed_change_continuity_witness :
    ∃ s', stepEv demoAB (Ev.changeSpeed 2) playingState = some s' ∧
      (0 : Nat) ∉ pendingTids s' ∧
      s'.pending = playingState.pending.filter (fun x => x.tid ≠ 0) ++
        [⟨1, 1000 + (3000 - (1000 - 0) * 1) / 2, TimerCb.showNext⟩] ∧
      s'.animationTimeout = some 1 ∧
      ((1000 : ℚ) + (3000 - (1000 - 0) * 1) / 2) - 0 = (1000 - 0) + (3000 - (1000 - 0) * 1) / 2 ∧
      (s'.now - s'.timerStartTime) / s'.timerDuration
        = ((1000 : ℚ) - 0) / 3000 := by
  have h := C1_speed_change_continuity demoAB playingState 2 ⟨0, 3000, TimerCb.showNext⟩
    rfl rfl rfl (by decide) rfl (by decide) (by decide) (by decide)
    (by decide) (by decide) (by decide)
  simpa [playingState, blankState] using h

/-- C8: a `switchTab` whose target is the already-current scenario returns
with the state exactly unchanged — same runtime fields, same pending
timers, and no fade started. -/
theorem C8_idempotent_tab_switch (d : Demo) (s : CState)
    (hv : (findScenario d s.currentScenario).isSome) :
    stepEv d (Ev.clickTab s.currentScenario) s = some s := by
  simp [stepEv, hv, switchTab]

/-- Witness for C8 at the initial state of the two-scenario demo. -/
theorem C8_idempotent_tab_switch_witness :
    stepEv demoAB (Ev.clickTab (initState demoAB).currentScenario) (initState demoAB)
      = some (initState demoAB) :=
  C8_idempotent_tab_switch demoAB (initState demoAB) (by decide)

/-- C9: `pause()` (the play/pause toggle while actively playing) sets
`isPaused`, halts the visual countdown, cancels the stored reveal timeout,
and leaves `currentScenario`, `currentStepIndex`, `hasStarted`, and the
speed multiplier unchanged. -/
theorem C9_pause_frame_effect (d : Demo) (s : CState)
    (hplay : s.isPlaying = true) (hpause : s.isPaused = false)
    (hbtn : s.playBtnDisabled = false) :
    ∃ s', stepEv d Ev.clickPlayPause s = some s' ∧ s' = pause d s ∧
      s'.currentScenario = s.currentScenario ∧
      s'.currentStepIndex = s.currentStepIndex ∧
      s'.hasStarted = s.hasStarted ∧ s'.speed = s.speed ∧
      s'.isPaused = true ∧ s'.timerActive = false ∧
      s'.animationTimeout = none ∧
      (∀ tid, s.animationTimeout = some tid → tid ∉ pendingTids s') := by
  refine ⟨pause d s, ?_, rfl, ?_⟩
  · simp [stepEv, hbtn, togglePlayPause, hplay, hpause]
  · unfold pause clearAnimationTimeout updateButtonStates stopTimer
    cases hA : s.animationTimeout with
    | none => simp [hA, pendingTids]
    | some tid => simp [hA, pendingTids]

/-- Witness for C9 at a concrete mid-playback state. -/
theorem C9_pause_frame_effect_witness :
    ∃ s', stepEv demoAB Ev.clickPlayPause playingState = some s' ∧
      s' = pause demoAB playingState ∧
      s'.currentScenario = playingState.currentScenario ∧
      s'.currentStepIndex = playingState.currentStepIndex ∧
      s'.hasStarted = playingState.hasStarted ∧ s'.speed = playingState.speed ∧
      s'.isPaused = true ∧ s'.timerActive = false ∧
      s'.animationTimeout = none ∧
      (∀ tid, playingState.animationTimeout = some tid → tid ∉ pendingTids s') :=
  C9_pause_frame_effect demoAB playingState rfl rfl rfl

/-- C6: with the reduced-motion preference active, the overlay's
play-equivalent behavior runs `showAllInstantly` in one synchronous step
(never entering `Playing`): every step of the current scenario is appended
at once, `currentStepIndex` becomes the scenario length, `isPlaying` is
false, and, the timer queue being untouched, no scheduled reveal remains
when none was pending. -/
theorem C6_reduced_motion (d : Demo) (s : CState)
    (hrm : d.prefersReducedMotion = true) (hov : s.overlayHidden = false)
    (hp : s.pending = []) :
    ∃ s', stepEv d Ev.clickOverlay s = some s' ∧ s' = showAllInstantly d s ∧
      s'.currentStepIndex = (getSteps d s).length ∧
      s'.isPlaying = false ∧ s'.hasStarted = true ∧
      s'.pending = [] ∧
      s'.revealed = s.revealed ++
        (List.range (getSteps d s).length).map (fun i => (s.currentScenario, i)) := by
  refine ⟨showAllInstantly d s, ?_, rfl, ?_⟩
  · simp [stepEv, hov, hrm]
  · unfold showAllInstantly updateButtonStates clearChatMessages
    simp [hp, getSteps]

/-- Witness for C6 at the pre-initialization reduced-motion state. -/
theorem C6_reduced_motion_witness :
    ∃ s', stepEv demoRM Ev.clickOverlay rmState = some s' ∧
      s' = showAllInstantly demoRM rmState ∧
      s'.currentStepIndex = (getSteps demoRM rmState).length ∧
      s'.isPlaying = false ∧ s'.hasStarted = true ∧
      s'.pending = [] ∧
      s'.revealed = rmState.revealed ++
        (List.range (getSteps demoRM rmState).length).map
          (fun i => (rmState.currentScenario, i)) :=
  C6_reduced_motion demoRM rmState rfl (by decide) (by decide)

/-- C5: in the two-scenario demo `[A(2), B(1)]` with `autoAdvance` and
`upNextDelay = 2500` at multiplier 1, playing A to completion schedules the
"Up Next" switch 2500 ms out (the countdown running with that duration),
then the fade fires (300 ms), then the view switches to B with the content
cleared, the overlay still hidden (no static preview re-shown), and B
playing immediately with exactly one scheduled reveal; when B completes,
the next "Up Next" wraps around to A. -/
theorem C5_auto_advance :
    ((run demoAB [Ev.clickOverlay, Ev.fire] (initState demoAB)).map
        (fun s => (s.pending, s.animationTimeout, s.now, s.isPlaying, s.timerDuration))
      = some ([⟨1, 5500, TimerCb.upNext "B"⟩], some 1, 3000, true, 2500)) ∧
    ((run demoAB [Ev.clickOverlay, Ev.fire, Ev.fire] (initState demoAB)).map
        (fun s => (s.pending, s.fading, s.now))
      = some ([⟨2, 5800, TimerCb.advFade "B"⟩], true, 5500)) ∧
    ((run demoAB [Ev.clickOverlay, Ev.fire, Ev.fire, Ev.fire] (initState demoAB)).map
        (fun s => (s.currentScenario, s.isPlaying, s.overlayHidden, s.fading, s.messagesCount))
      = some ("B", true, true, false, 1)) ∧
    ((run demoAB [Ev.clickOverlay, Ev.fire, Ev.fire, Ev.fire] (initState demoAB)).map
        (fun s => (s.revealed, revealCount s))
      = some ([("A",0),("A",1),("B",0)], 1)) ∧
    ((run demoAB [Ev.clickOverlay, Ev.fire, Ev.fire, Ev.fire, Ev.fire] (initState demoAB)).map
        (fun s => (s.pending.map Timer.cb))
      = some [TimerCb.upNext "A"]) := by
  refine ⟨?_, ?_, ?_, ?_, ?_⟩ <;> · set_option maxRecDepth 400000 in decide

theorem validTargets_nil (d : Demo) : ValidTargets d [] := by
  intro tm hm
  simp at hm

theorem validTargets_append {d : Demo} {l1 l2 : List Timer} :
    ValidTargets d (l1 ++ l2) ↔ ValidTargets d l1 ∧ ValidTargets d l2 := by
  constructor
  · intro h
    exact ⟨fun tm hm => h tm (List.mem_append_left _ hm),
           fun tm hm => h tm (List.mem_append_right _ hm)⟩
  · rintro ⟨h1, h2⟩ tm hm
    rcases List.mem_append.mp hm with hm | hm
    · exact h1 tm hm
    · exact h2 tm hm

theorem validTargets_filter {d : Demo} {l : List Timer} (h : ValidTargets d l)
    (p : Timer → Bool) : ValidTargets d (l.filter p) := by
  intro tm hm
  exact h tm (List.mem_of_mem_filter hm)

theorem validTargets_showNext {d : Demo} (t : Nat) (q : ℚ) :
    ValidTargets d [⟨t, q, TimerCb.showNext⟩] := by
  intro tm hm nid wasP hcb
  simp at hm
  rcases hcb with h | h | h <;> rw [hm] at h <;> simp at h

theorem validTargets_target {d : Demo} (t : Nat) (q : ℚ) (cb : TimerCb)
    (h : ∀ nid wasP, (cb = TimerCb.upNext nid ∨ cb = TimerCb.advFade nid ∨
      cb = TimerCb.tabFade nid wasP) → (findScenario d nid).isSome) :
    ValidTargets d [⟨t, q, cb⟩] := by
  intro tm hm nid wasP hcb
  simp at hm
  exact h nid wasP (by rw [hm] at hcb; exact hcb)

theorem findScenario_isSome_of_mem {d : Demo} {id : String} (h : id ∈ scenarioOrder d) :
    (findScenario d id).isSome := by
  simp only [scenarioOrder, List.mem_map] at h
  obtain ⟨sc, hsc, rfl⟩ := h
  rw [findScenario, List.find?_isSome]
  exact ⟨sc, hsc, by simp⟩

theorem mem_getD_mod (order : List String) (h : order ≠ []) (i : Nat) :
    order.getD (i % order.length) "" ∈ order := by
  have hl : 0 < order.length := List.length_pos.mpr h
  have hlt : i % order.length < order.length := Nat.mod_lt _ hl
  rw [List.getD_eq_getElem?_getD, List.getElem?_eq_getElem hlt]
  exact List.getElem_mem _

theorem steps_len_pos {d : Demo} {id : String} (hd : validDemo d)
    (h1 : (findScenario d id).isSome) : 0 < (getStepsOf d id).length := by
  obtain ⟨sc, hsc⟩ := Option.isSome_iff_exists.mp h1
  have hmem : sc ∈ d.scenarios := List.mem_of_find?_eq_some hsc
  have hne := hd.2 sc hmem
  simp [getStepsOf, hsc, List.length_pos, hne]

theorem indexInv_advance {d : Demo} {s : CState} (hd : validDemo d)
    (h : IndexInv d s) : IndexInv d (advanceToNextScenario d s) := by
  obtain ⟨h1, h2, h3⟩ := h
  unfold advanceToNextScenario setAnimationTimeout setTimeoutCb startTimer
  dsimp only
  refine ⟨h1, h2, ?_⟩
  rw [validTargets_append]
  refine ⟨h3, validTargets_target _ _ _ ?_⟩
  rintro nid wasP (hcb | hcb | hcb)
  · injection hcb with hcb
    rw [← hcb]
    apply findScenario_isSome_of_mem
    apply mem_getD_mod
    simp [scenarioOrder, hd.1]
  · simp at hcb
  · simp at hcb

theorem indexInv_showInitialPreview {d : Demo} {s : CState}
    (h : IndexInv d s) : IndexInv d (showInitialPreview d s) := by
  obtain ⟨h1, h2, h3⟩ := h
  unfold showInitialPreview appendStepElement updateButtonStates
  dsimp only
  split_ifs with hc
  · exact ⟨h1, by simp [getSteps, getStepsOf], h3⟩
  · exact ⟨h1, h2, h3⟩

theorem indexInv_showAllInstantly {d : Demo} {s : CState}
    (h : IndexInv d s) : IndexInv d (showAllInstantly d s) := by
  obtain ⟨h1, h2, h3⟩ := h
  unfold showAllInstantly updateButtonStates clearChatMessages
  dsimp only
  exact ⟨h1, le_refl _, h3⟩

theorem indexInv_showNextStep {d : Demo} {s : CState} (hd : validDemo d)
    (h : IndexInv d s) : IndexInv d (showNextStep d s) := by
  obtain ⟨h1, h2, h3⟩ := h
  unfold showNextStep stopTimer appendStepElement setAnimationTimeout setTimeoutCb startTimer
  dsimp only
  split_ifs with hc1 hc2 hc3 hc4 hc5
  · exact indexInv_advance hd ⟨h1, h2, h3⟩
  · exact ⟨h1, h2, h3⟩
  · exact ⟨h1, h2, h3⟩
  · refine ⟨h1, le_of_lt (by simpa [getSteps, getStepsOf] using hc4), ?_⟩
    rw [validTargets_append]
    exact ⟨h3, validTargets_showNext _ _⟩
  · refine indexInv_advance hd ⟨h1, ?_, h3⟩
    show s.currentStepIndex + 1 ≤ (getSteps d s).length
    simp only [getSteps, getStepsOf] at hc1 ⊢
    omega
  · refine ⟨h1, ?_, h3⟩
    show s.currentStepIndex + 1 ≤ (getSteps d s).length
    simp only [getSteps, getStepsOf] at hc1 ⊢
    omega

theorem indexInv_play {d : Demo} {s : CState} (hd : validDemo d)
    (h : IndexInv d s) : IndexInv d (play d s) := by
  obtain ⟨h1, h2, h3⟩ := h
  have hlen : 0 < (getSteps d s).length := steps_len_pos hd h1
  unfold play appendStepElement setAnimationTimeout setTimeoutCb startTimer
    updateButtonStates clearChatMessages
  dsimp only
  split_ifs with hc1 hc2 hc3 hc4 hc5
  · -- first-play branch, preview already present
    refine ⟨h1, by simpa [getSteps, getStepsOf] using hlen, ?_⟩
    rw [validTargets_append]
    exact ⟨h3, validTargets_showNext _ _⟩
  · -- first-play branch, empty container
    refine ⟨h1, by simpa [getSteps, getStepsOf] using hlen, ?_⟩
    rw [validTargets_append]
    exact ⟨h3, validTargets_showNext _ _⟩
  · -- resume from pause
    exact indexInv_showNextStep hd ⟨h1, h2, h3⟩
  · -- already playing
    exact ⟨h1, h2, h3⟩
  · -- replay after completion
    refine ⟨h1, by simpa [getSteps, getStepsOf] using hlen, ?_⟩
    rw [validTargets_append]
    exact ⟨h3, validTargets_showNext _ _⟩
  · -- not started? no: hasStarted, not paused, not playing, incomplete
    exact indexInv_showNextStep hd ⟨h1, h2, h3⟩

theorem indexInv_pause {d : Demo} {s : CState}
    (h : IndexInv d s) : IndexInv d (pause d s) := by
  obtain ⟨h1, h2, h3⟩ := h
  unfold pause clearAnimationTimeout updateButtonStates stopTimer
  dsimp only
  cases hA : s.animationTimeout with
  | none => exact ⟨h1, h2, h3⟩
  | some tid => exact ⟨h1, h2, validTargets_filter h3 _⟩

theorem indexInv_switchToScenario {d : Demo} {s : CState} {id : String}
    (hid : (findScenario d id).isSome) (h : IndexInv d s) :
    IndexInv d (switchToScenario d s id) := by
  obtain ⟨h1, h2, h3⟩ := h
  unfold switchToScenario clearChatMessages stopTimer
  dsimp only
  apply indexInv_showInitialPreview
  cases hA : s.animationTimeout with
  | none =>
      refine ⟨hid, by simp, ?_⟩
      simpa [clearAnimationTimeout, hA] using h3
  | some tid =>
      refine ⟨hid, by simp, ?_⟩
      simp only [clearAnimationTimeout, hA]
      exact validTargets_filter h3 _

theorem indexInv_switchTab {d : Demo} {s : CState} {id : String}
    (hid : (findScenario d id).isSome) (h : IndexInv d s) :
    IndexInv d (switchTab d s id) := by
  obtain ⟨h1, h2, h3⟩ := h
  unfold switchTab setTimeoutCb stopTimer
  dsimp only
  split_ifs with hc
  · exact ⟨h1, h2, h3⟩
  · cases hA : s.animationTimeout with
    | none =>
        simp only [clearAnimationTimeout, hA]
        refine ⟨h1, h2, ?_⟩
        rw [validTargets_append]
        refine ⟨h3, validTargets_target _ _ _ ?_⟩
        rintro nid wasP (hcb | hcb | hcb) <;> first
          | (injection hcb with hcb1 hcb2; rw [← hcb1]; exact hid)
          | simp at hcb
    | some tid =>
        simp only [clearAnimationTimeout, hA]
        refine ⟨h1, h2, ?_⟩
        rw [validTargets_append]
        refine ⟨validTargets_filter h3 _, validTargets_target _ _ _ ?_⟩
        rintro nid wasP (hcb | hcb | hcb) <;> first
          | (injection hcb with hcb1 hcb2; rw [← hcb1]; exact hid)
          | simp at hcb

theorem indexInv_tabFadeCb {d : Demo} {s : CState} {id : String} {wasP : Bool}
    (hd : validDemo d) (hid : (findScenario d id).isSome) (h : IndexInv d s) :
    IndexInv d (tabFadeCb d s id wasP) := by
  obtain ⟨h1, h2, h3⟩ := h
  unfold tabFadeCb clearChatMessages
  dsimp only
  split_ifs with hc1 hc2
  · exact indexInv_showAllInstantly ⟨hid, by simp, h3⟩
  · exact indexInv_play hd (indexInv_showInitialPreview ⟨hid, by simp, h3⟩)
  · exact indexInv_showInitialPreview ⟨hid, by simp, h3⟩

theorem indexInv_upNextCb {d : Demo} {s : CState} {id : String}
    (hid : (findScenario d id).isSome) (h : IndexInv d s) :
    IndexInv d (upNextCb d s id) := by
  obtain ⟨h1, h2, h3⟩ := h
  unfold upNextCb setTimeoutCb stopTimer
  dsimp only
  refine ⟨h1, h2, ?_⟩
  rw [validTargets_append]
  refine ⟨h3, validTargets_target _ _ _ ?_⟩
  rintro nid wasP (hcb | hcb | hcb) <;> first
    | (injection hcb with hcb1; rw [← hcb1]; exact hid)
    | simp at hcb

theorem indexInv_advFadeCb {d : Demo} {s : CState} {id : String}
    (hd : validDemo d) (hid : (findScenario d id).isSome) (h : IndexInv d s) :
    IndexInv d (advFadeCb d s id) := by
  obtain ⟨h1, h2, h3⟩ := h
  unfold advFadeCb clearChatMessages
  dsimp only
  exact indexInv_play hd ⟨hid, by simp, h3⟩

theorem indexInv_changeSpeed {d : Demo} {s : CState} {v : ℚ}
    (h : IndexInv d s) : IndexInv d (changeSpeed d s v) := by
  obtain ⟨h1, h2, h3⟩ := h
  unfold changeSpeed setAnimationTimeout setTimeoutCb
  dsimp only
  split_ifs with hc1 hc2
  · refine ⟨h1, h2, ?_⟩
    rw [validTargets_append]
    exact ⟨validTargets_filter h3 _, validTargets_showNext _ _⟩
  · exact ⟨h1, h2, h3⟩
  · exact ⟨h1, h2, h3⟩

theorem earliest_mem : ∀ {l : List Timer} {tm : Timer}, earliest l = some tm → tm ∈ l := by
  intro l
  induction l with
  | nil => intro tm h; simp [earliest] at h
  | cons hd rest ih =>
      intro tm h
      unfold earliest at h
      cases hE : earliest rest with
      | none => rw [hE] at h; simp at h; simp [h]
      | some tm2 =>
          rw [hE] at h
          dsimp only at h
          split_ifs at h with hlt
          · simp at h
            exact List.mem_cons_of_mem _ (h ▸ ih hE)
          · simp at h
            simp [h]

theorem indexInv_stepEv {d : Demo} {ev : Ev} {s s' : CState} (hd : validDemo d)
    (h : IndexInv d s) (hst : stepEv d ev s = some s') : IndexInv d s' := by
  obtain ⟨h1, h2, h3⟩ := h
  cases ev with
  | tick t =>
      simp only [stepEv] at hst
      split_ifs at hst
      injection hst with hst
      rw [← hst]
      exact ⟨h1, h2, h3⟩
  | fire =>
      simp only [stepEv] at hst
      cases hE : earliest s.pending with
      | none => rw [hE] at hst; simp at hst
      | some tm =>
          rw [hE] at hst
          dsimp only at hst
          injection hst with hst
          rw [← hst]
          have hmem := earliest_mem hE
          have hmid : IndexInv d { s with now := tm.due, pending := s.pending.filter (fun x => x.tid ≠ tm.tid) } := ⟨h1, h2, validTargets_filter h3 _⟩
          cases hcb : tm.cb with
          | showNext => exact indexInv_showNextStep hd hmid
          | upNext nid =>
              exact indexInv_upNextCb (h3 tm hmem nid false (Or.inl hcb)) hmid
          | advFade nid =>
              exact indexInv_advFadeCb hd (h3 tm hmem nid false (Or.inr (Or.inl hcb))) hmid
          | tabFade nid wasP =>
              exact indexInv_tabFadeCb hd (h3 tm hmem nid wasP (Or.inr (Or.inr hcb))) hmid
  | clickPlayPause =>
      simp only [stepEv] at hst
      split_ifs at hst
      injection hst with hst
      rw [← hst]
      unfold togglePlayPause
      split_ifs with hc
      · exact indexInv_pause ⟨h1, h2, h3⟩
      · exact indexInv_play hd ⟨h1, h2, h3⟩
  | clickReset =>
      simp only [stepEv] at hst
      injection hst with hst
      rw [← hst]
      exact indexInv_switchToScenario h1 ⟨h1, h2, h3⟩
  | clickTab id =>
      simp only [stepEv] at hst
      split_ifs at hst with hid
      injection hst with hst
      rw [← hst]
      exact indexInv_switchTab hid ⟨h1, h2, h3⟩
  | clickOverlay =>
      simp only [stepEv] at hst
      split_ifs at hst with hov hrm
      · injection hst with hst
        rw [← hst]
        exact indexInv_showAllInstantly ⟨h1, h2, h3⟩
      · injection hst with hst
        rw [← hst]
        exact indexInv_play hd ⟨h1, h2, h3⟩
  | changeSpeed v =>
      simp only [stepEv] at hst
      injection hst with hst
      rw [← hst]
      exact indexInv_changeSpeed ⟨h1, h2, h3⟩

theorem indexInv_init {d : Demo} (hd : validDemo d) : IndexInv d (initState d) := by
  have hbase : IndexInv d (blankState d) := by
    refine ⟨?_, by simp [blankState], ?_⟩
    · apply findScenario_isSome_of_mem
      have hne : scenarioOrder d ≠ [] := by simp [scenarioOrder, hd.1]
      cases hsc : scenarioOrder d with
      | nil => exact absurd hsc hne
      | cons a rest => simp [blankState, hsc]
    · intro tm hm
      simp [blankState] at hm
  unfold initState
  dsimp only
  split_ifs with hc
  · exact indexInv_showAllInstantly (indexInv_showInitialPreview hbase)
  · exact indexInv_showInitialPreview hbase

theorem indexInv_run {d : Demo} (hd : validDemo d) :
    ∀ (evs : List Ev) (s s' : CState), IndexInv d s → run d evs s = some s' → IndexInv d s' := by
  intro evs
  induction evs with
  | nil =>
      intro s s' h hr
      simp [run] at hr
      rw [← hr]
      exact h
  | cons ev rest ih =>
      intro s s' h hr
      simp only [run] at hr
      cases hst : stepEv d ev s with
      | none => rw [hst] at hr; simp at hr
      | some smid =>
          rw [hst] at hr
          rw [Option.some_bind] at hr
          exact ih smid s' (indexInv_stepEv hd h hst) hr

/-- C10: from initialization, every sequence of controller events (play,
pause, reset, timer firings, tab switches, reduced-motion reveal-all, speed
changes) keeps the current scenario valid and
`currentStepIndex ≤ steps.length` (it is the index of the next step to
reveal, or the one-past-the-end completion position), given every scenario
has a non-empty step sequence. -/
theorem C10_step_index_bounds (d : Demo) (evs : List Ev) (s : CState)
    (hd : validDemo d) (hrun : run d evs (initState d) = some s) :
    (findScenario d s.currentScenario).isSome ∧
    s.currentStepIndex ≤ (getSteps d s).length := by
  have h := indexInv_run hd evs (initState d) s (indexInv_init hd) hrun
  exact ⟨h.1, h.2.1⟩

set_option maxRecDepth 400000 in
/-- Witness for C10: the bounds hold after the six-event race trace. -/
theorem C10_step_index_bounds_witness :
    (findScenario demoRace
      ((run demoRace raceTrace (initState demoRace)).getD (blankState demoRace)).currentScenario).isSome ∧
    ((run demoRace raceTrace (initState demoRace)).getD (blankState demoRace)).currentStepIndex ≤
      (getSteps demoRace ((run demoRace raceTrace (initState demoRace)).getD (blankState demoRace))).length :=
  C10_step_index_bounds demoRace raceTrace _ ⟨by decide, by decide⟩ (by decide)

theorem findScenario_head {d : Demo} {sc : Scenario} {rest : List Scenario}
    (hd : d.scenarios = sc :: rest) : findScenario d sc.id = some sc := by
  simp [findScenario, hd]

theorem getSteps_head {d : Demo} {sc : Scenario} {rest : List Scenario}
    (hd : d.scenarios = sc :: rest) : getStepsOf d sc.id = sc.steps := by
  simp [getStepsOf, findScenario_head hd]

theorem overlay_init {d : Demo} {sc : Scenario} {rest : List Scenario}
    (hd : d.scenarios = sc :: rest) (hN : 0 < sc.steps.length)
    (hrm : d.prefersReducedMotion = false) :
    stepEv d Ev.clickOverlay (initState d) = some (midState d sc 0 0 0) := by
  have hN' : ¬ (sc.steps.length ≤ 0) := by omega
  have hfs := getSteps_head hd
  simp only [stepEv, initState, blankState, showInitialPreview, updateButtonStates,
    appendStepElement, scenarioOrder, hd, hrm, play, startTimer, setAnimationTimeout,
    setTimeoutCb, getSteps, midState, stepDelay, List.map_cons, List.getD_cons_zero, hfs]
  simp [hN, hN', hfs, List.range_succ]

theorem fire_mid {d : Demo} {sc : Scenario} {rest : List Scenario}
    (hd : d.scenarios = sc :: rest) (k tid : Nat) (t0 : ℚ)
    (h : k + 2 < sc.steps.length) :
    stepEv d Ev.fire (midState d sc k tid t0)
      = some (midState d sc (k + 1) (tid + 1) (t0 + stepDelay d sc k)) := by
  have hfs := getSteps_head hd
  have h1 : ¬ (sc.steps.length ≤ k + 1) := by omega
  have h2 : k + 1 + 1 < sc.steps.length := by omega
  simp only [stepEv, midState, earliest]
  simp only [runCb, showNextStep, stopTimer, getSteps, hfs, appendStepElement,
    setAnimationTimeout, setTimeoutCb, startTimer, stepDelay]
  simp [h1, h2, List.range_succ, List.filter]

theorem fire_last {d : Demo} {sc : Scenario} {rest : List Scenario}
    (hd : d.scenarios = sc :: rest) (k tid : Nat) (t0 : ℚ)
    (h : k + 2 = sc.steps.length) :
    ∃ s', stepEv d Ev.fire (midState d sc k tid t0) = some s' ∧
      s'.revealed = (List.range (k + 2)).map (fun i => (sc.id, i)) ∧
      (¬ (d.autoAdvance = true ∧ hasMultipleScenarios d = true) →
        s'.isPlaying = false ∧ s'.pending = []) := by
  have hfs := getSteps_head hd
  have h1 : ¬ (sc.steps.length ≤ k + 1) := by omega
  have h2 : ¬ (k + 1 + 1 < sc.steps.length) := by omega
  refine ⟨_, rfl, ?_, ?_⟩
  · simp only [runCb, showNextStep, stopTimer, getSteps, hfs, appendStepElement,
      setAnimationTimeout, setTimeoutCb, startTimer, updateButtonStates,
      advanceToNextScenario, midState, earliest]
    simp [h1, h2, List.range_succ]
    split_ifs <;> simp [List.range_succ]
  · intro hadv
    have hc : (d.autoAdvance && hasMultipleScenarios d) = false := by
      cases ha : d.autoAdvance <;> cases hb : hasMultipleScenarios d <;> simp_all
    simp only [runCb, showNextStep, stopTimer, getSteps, hfs, appendStepElement,
      setAnimationTimeout, setTimeoutCb, startTimer, updateButtonStates,
      midState, earliest]
    simp [h1, h2, hc, List.filter]

theorem fire_done {d : Demo} {sc : Scenario} {rest : List Scenario}
    (hd : d.scenarios = sc :: rest) (k tid : Nat) (t0 : ℚ)
    (h : k + 1 = sc.steps.length) :
    ∃ s', stepEv d Ev.fire (midState d sc k tid t0) = some s' ∧
      s'.revealed = (List.range (k + 1)).map (fun i => (sc.id, i)) ∧
      (¬ (d.autoAdvance = true ∧ hasMultipleScenarios d = true) →
        s'.isPlaying = false ∧ s'.pending = []) := by
  have hfs := getSteps_head hd
  have h1 : sc.steps.length ≤ k + 1 := by omega
  refine ⟨_, rfl, ?_, ?_⟩
  · simp only [runCb, showNextStep, stopTimer, getSteps, hfs, appendStepElement,
      setAnimationTimeout, setTimeoutCb, startTimer, updateButtonStates,
      advanceToNextScenario, midState, earliest]
    simp [h1]
    split_ifs <;> simp
  · intro hadv
    have hc : (d.autoAdvance && hasMultipleScenarios d) = false := by
      cases ha : d.autoAdvance <;> cases hb : hasMultipleScenarios d <;> simp_all
    simp only [runCb, showNextStep, stopTimer, getSteps, hfs, appendStepElement,
      setAnimationTimeout, setTimeoutCb, startTimer, updateButtonStates,
      midState, earliest]
    simp [h1, hc, List.filter]

theorem runFires {d : Demo} {sc : Scenario} {rest : List Scenario}
    (hd : d.scenarios = sc :: rest) :
    ∀ (j k tid : Nat) (t0 : ℚ), k + 1 + j = sc.steps.length → 1 ≤ j →
    ∃ s', run d (List.replicate j Ev.fire) (midState d sc k tid t0) = some s' ∧
      s'.revealed = (List.range sc.steps.length).map (fun i => (sc.id, i)) ∧
      (¬ (d.autoAdvance = true ∧ hasMultipleScenarios d = true) →
        s'.isPlaying = false ∧ s'.pending = []) := by
  intro j
  induction j with
  | zero => intro k tid t0 hk hj; omega
  | succ n ih =>
      intro k tid t0 hk hj
      by_cases hn : n = 0
      · subst hn
        have hlast : k + 2 = sc.steps.length := by omega
        obtain ⟨s', hstep, hrev, hfin⟩ := fire_last hd k tid t0 hlast
        refine ⟨s', ?_, by rw [hrev, hlast], hfin⟩
        simp [run, hstep]
      · have hmid : k + 2 < sc.steps.length := by omega
        have hstep := fire_mid hd k tid t0 hmid
        obtain ⟨s', hrun, hrev, hfin⟩ :=
          ih (k + 1) (tid + 1) (t0 + stepDelay d sc k) (by omega) (by omega)
        refine ⟨s', ?_, hrev, hfin⟩
        simp only [List.replicate_succ, run, hstep, Option.some_bind]
        exact hrun

/-- C4: for every demo whose first scenario `sc` has a non-empty step list,
playing from the initial state without interruption (the overlay click
followed by the reveal timers firing) produces the reveal sequence
`(sc.id, 0), (sc.id, 1), ..., (sc.id, N-1)` exactly — in index order, no
repeats, no gaps — and, when no auto-advance applies, ends stopped with no
timer pending. -/
theorem C4_monotonic_reveal (d : Demo) (sc : Scenario) (rest : List Scenario)
    (hd : d.scenarios = sc :: rest) (hne : sc.steps ≠ [])
    (hrm : d.prefersReducedMotion = false) :
    ∃ s, run d (Ev.clickOverlay :: List.replicate (max (sc.steps.length - 1) 1) Ev.fire)
        (initState d) = some s ∧
      s.revealed = (List.range sc.steps.length).map (fun i => (sc.id, i)) ∧
      (¬ (d.autoAdvance = true ∧ hasMultipleScenarios d = true) →
        s.isPlaying = false ∧ s.pending = []) := by
  have hN : 0 < sc.steps.length := List.length_pos.mpr hne
  have hov := overlay_init hd hN hrm
  by_cases h1 : sc.steps.length = 1
  · obtain ⟨s', hstep, hrev, hfin⟩ := fire_done hd 0 0 0 (by omega)
    refine ⟨s', ?_, by rw [hrev, h1], hfin⟩
    have hmax : max (sc.steps.length - 1) 1 = 1 := by omega
    rw [hmax]
    simp only [run, hov, Option.some_bind, List.replicate_succ, List.replicate_zero, hstep]
  · have hmax : max (sc.steps.length - 1) 1 = sc.steps.length - 1 := by omega
    obtain ⟨s', hrun, hrev, hfin⟩ :=
      runFires hd (sc.steps.length - 1) 0 0 0 (by omega) (by omega)
    refine ⟨s', ?_, hrev, hfin⟩
    rw [hmax]
    simp only [run, hov, Option.some_bind]
    exact hrun

set_option maxRecDepth 400000 in
/-- Witness for C4 at the concrete two-step scenario A of the two-scenario
demo. -/
theorem C4_monotonic_reveal_witness :
    ∃ s, run demoAB (Ev.clickOverlay :: List.replicate (max (scenA.steps.length - 1) 1) Ev.fire)
        (initState demoAB) = some s ∧
      s.revealed = (List.range scenA.steps.length).map (fun i => (scenA.id, i)) ∧
      (¬ (demoAB.autoAdvance = true ∧ hasMultipleScenarios demoAB = true) →
        s.isPlaying = false ∧ s.pending = []) :=
  C4_monotonic_reveal demoAB scenA [scenB] rfl (by decide) rfl

/-! ## Single outstanding timer (claim C3) -/



theorem tidAvoid_of_filter {t : Nat} {l : List Timer} (h : t ∉ l.map Timer.tid)
    (p : Timer → Bool) : t ∉ (l.filter p).map Timer.tid := by
  intro hmem
  obtain ⟨x, hx, hxt⟩ := List.mem_map.mp hmem
  exact h (List.mem_map.mpr ⟨x, List.mem_of_mem_filter hx, hxt⟩)

theorem tidAvoid_clearAnim {t : Nat} {s : CState} (h : TidAvoid t s) :
    TidAvoid t (clearAnimationTimeout s) := by
  obtain ⟨h1, h2⟩ := h
  unfold clearAnimationTimeout
  cases hA : s.animationTimeout with
  | none => exact ⟨h1, h2⟩
  | some tid => exact ⟨h1, tidAvoid_of_filter h2 _⟩

theorem tidAvoid_advance {d : Demo} {t : Nat} {s : CState} (h : TidAvoid t s) :
    TidAvoid t (advanceToNextScenario d s) := by
  obtain ⟨h1, h2⟩ := h
  unfold advanceToNextScenario setAnimationTimeout setTimeoutCb startTimer
  dsimp only
  refine ⟨by show t < s.nextTid + 1; omega, ?_⟩
  simp only [pendingTids, List.map_append, List.mem_append, List.map_cons, List.map_nil,
    List.mem_singleton, not_or] at h2 ⊢
  exact ⟨h2, by omega⟩

theorem tidAvoid_showNextStep {d : Demo} {t : Nat} {s : CState} (h : TidAvoid t s) :
    TidAvoid t (showNextStep d s) := by
  obtain ⟨h1, h2⟩ := h
  unfold showNextStep stopTimer appendStepElement setAnimationTimeout setTimeoutCb startTimer
    updateButtonStates
  dsimp only
  split_ifs with hc1 hc2 hc3 hc4 hc5
  · exact tidAvoid_advance ⟨h1, h2⟩
  · exact ⟨h1, h2⟩
  · exact ⟨h1, h2⟩
  · refine ⟨by show t < s.nextTid + 1; omega, ?_⟩
    simp only [pendingTids, List.map_append, List.mem_append, List.map_cons, List.map_nil,
      List.mem_singleton, not_or] at h2 ⊢
    exact ⟨h2, by omega⟩
  · exact tidAvoid_advance ⟨h1, h2⟩
  · exact ⟨h1, h2⟩

theorem tidAvoid_play {d : Demo} {t : Nat} {s : CState} (h : TidAvoid t s) :
    TidAvoid t (play d s) := by
  obtain ⟨h1, h2⟩ := h
  unfold play appendStepElement setAnimationTimeout setTimeoutCb startTimer
    updateButtonStates clearChatMessages
  dsimp only
  split_ifs with hc1 hc2 hc3 hc4 hc5
  · refine ⟨by show t < s.nextTid + 1; omega, ?_⟩
    simp only [pendingTids, List.map_append, List.mem_append, List.map_cons, List.map_nil,
      List.mem_singleton, not_or] at h2 ⊢
    exact ⟨h2, by omega⟩
  · refine ⟨by show t < s.nextTid + 1; omega, ?_⟩
    simp only [pendingTids, List.map_append, List.mem_append, List.map_cons, List.map_nil,
      List.mem_singleton, not_or] at h2 ⊢
    exact ⟨h2, by omega⟩
  · exact tidAvoid_showNextStep ⟨h1, h2⟩
  · exact ⟨h1, h2⟩
  · refine ⟨by show t < s.nextTid + 1; omega, ?_⟩
    simp only [pendingTids, List.map_append, List.mem_append, List.map_cons, List.map_nil,
      List.mem_singleton, not_or] at h2 ⊢
    exact ⟨h2, by omega⟩
  · exact tidAvoid_showNextStep ⟨h1, h2⟩

theorem tidAvoid_pause {d : Demo} {t : Nat} {s : CState} (h : TidAvoid t s) :
    TidAvoid t (pause d s) := by
  obtain ⟨h1, h2⟩ := h
  unfold pause updateButtonStates stopTimer
  dsimp only
  exact tidAvoid_clearAnim ⟨h1, h2⟩

theorem tidAvoid_showInitialPreview {d : Demo} {t : Nat} {s : CState} (h : TidAvoid t s) :
    TidAvoid t (showInitialPreview d s) := by
  obtain ⟨h1, h2⟩ := h
  unfold showInitialPreview appendStepElement updateButtonStates
  dsimp only
  split_ifs with hc
  · exact ⟨h1, h2⟩
  · exact ⟨h1, h2⟩

theorem tidAvoid_switchToScenario {d : Demo} {t : Nat} {s : CState} {id : String}
    (h : TidAvoid t s) : TidAvoid t (switchToScenario d s id) := by
  obtain ⟨h1, h2⟩ := h
  unfold switchToScenario clearChatMessages stopTimer
  dsimp only
  exact tidAvoid_showInitialPreview (tidAvoid_clearAnim ⟨h1, h2⟩)

theorem tidAvoid_showAllInstantly {d : Demo} {t : Nat} {s : CState} (h : TidAvoid t s) :
    TidAvoid t (showAllInstantly d s) := by
  obtain ⟨h1, h2⟩ := h
  unfold showAllInstantly updateButtonStates clearChatMessages
  dsimp only
  exact ⟨h1, h2⟩

theorem tidAvoid_switchTab {d : Demo} {t : Nat} {s : CState} {id : String}
    (h : TidAvoid t s) : TidAvoid t (switchTab d s id) := by
  obtain ⟨h1, h2⟩ := h
  unfold switchTab setTimeoutCb stopTimer
  dsimp only
  split_ifs with hc
  · exact ⟨h1, h2⟩
  · cases hA : s.animationTimeout with
    | none =>
        simp only [clearAnimationTimeout, hA]
        refine ⟨by show t < s.nextTid + 1; omega, ?_⟩
        simp only [pendingTids, List.map_append, List.mem_append, List.map_cons,
          List.map_nil, List.mem_singleton, not_or]
        exact ⟨h2, by omega⟩
    | some tid2 =>
        simp only [clearAnimationTimeout, hA]
        refine ⟨by show t < s.nextTid + 1; omega, ?_⟩
        simp only [pendingTids, List.map_append, List.mem_append, List.map_cons,
          List.map_nil, List.mem_singleton, not_or]
        exact ⟨tidAvoid_of_filter h2 _, by omega⟩

theorem tidAvoid_tabFadeCb {d : Demo} {t : Nat} {s : CState} {id : String} {wasP : Bool}
    (h : TidAvoid t s) : TidAvoid t (tabFadeCb d s id wasP) := by
  obtain ⟨h1, h2⟩ := h
  unfold tabFadeCb clearChatMessages
  dsimp only
  split_ifs with hc1 hc2
  · exact tidAvoid_showAllInstantly ⟨h1, h2⟩
  · exact tidAvoid_play (tidAvoid_showInitialPreview ⟨h1, h2⟩)
  · exact tidAvoid_showInitialPreview ⟨h1, h2⟩

theorem tidAvoid_upNextCb {d : Demo} {t : Nat} {s : CState} {id : String}
    (h : TidAvoid t s) : TidAvoid t (upNextCb d s id) := by
  obtain ⟨h1, h2⟩ := h
  unfold upNextCb setTimeoutCb stopTimer
  dsimp only
  refine ⟨by show t < s.nextTid + 1; omega, ?_⟩
  simp only [pendingTids, List.map_append, List.mem_append, List.map_cons, List.map_nil,
    List.mem_singleton, not_or] at h2 ⊢
  exact ⟨h2, by omega⟩

theorem tidAvoid_advFadeCb {d : Demo} {t : Nat} {s : CState} {id : String}
    (h : TidAvoid t s) : TidAvoid t (advFadeCb d s id) := by
  obtain ⟨h1, h2⟩ := h
  unfold advFadeCb clearChatMessages
  dsimp only
  exact tidAvoid_play ⟨h1, h2⟩

theorem tidAvoid_changeSpeed {d : Demo} {t : Nat} {s : CState} {v : ℚ}
    (h : TidAvoid t s) : TidAvoid t (changeSpeed d s v) := by
  obtain ⟨h1, h2⟩ := h
  unfold changeSpeed setAnimationTimeout setTimeoutCb
  dsimp only
  split_ifs with hc1 hc2
  · refine ⟨by show t < s.nextTid + 1; omega, ?_⟩
    simp only [pendingTids, List.map_append, List.mem_append, List.map_cons, List.map_nil,
      List.mem_singleton, not_or] at h2 ⊢
    exact ⟨tidAvoid_of_filter h2 _, by omega⟩
  · exact ⟨h1, h2⟩
  · exact ⟨h1, h2⟩

theorem tidAvoid_stepEv {d : Demo} {ev : Ev} {t : Nat} {s s' : CState}
    (h : TidAvoid t s) (hst : stepEv d ev s = some s') : TidAvoid t s' := by
  obtain ⟨h1, h2⟩ := h
  cases ev with
  | tick t2 =>
      simp only [stepEv] at hst
      split_ifs at hst
      injection hst with hst
      rw [← hst]
      exact ⟨h1, h2⟩
  | fire =>
      simp only [stepEv] at hst
      cases hE : earliest s.pending with
      | none => rw [hE] at hst; simp at hst
      | some tm =>
          rw [hE] at hst
          dsimp only at hst
          injection hst with hst
          rw [← hst]
          have hmid : TidAvoid t { s with now := tm.due, pending := s.pending.filter (fun x => x.tid ≠ tm.tid) } := ⟨h1, tidAvoid_of_filter h2 _⟩
          cases hcb : tm.cb with
          | showNext => exact tidAvoid_showNextStep (d := d) hmid
          | upNext nid => exact tidAvoid_upNextCb (d := d) hmid
          | advFade nid => exact tidAvoid_advFadeCb (d := d) hmid
          | tabFade nid wasP => exact tidAvoid_tabFadeCb (d := d) hmid
  | clickPlayPause =>
      simp only [stepEv] at hst
      split_ifs at hst
      injection hst with hst
      rw [← hst]
      unfold togglePlayPause
      split_ifs with hc
      · exact tidAvoid_pause ⟨h1, h2⟩
      · exact tidAvoid_play ⟨h1, h2⟩
  | clickReset =>
      simp only [stepEv] at hst
      injection hst with hst
      rw [← hst]
      exact tidAvoid_switchToScenario ⟨h1, h2⟩
  | clickTab id =>
      simp only [stepEv] at hst
      split_ifs at hst
      injection hst with hst
      rw [← hst]
      exact tidAvoid_switchTab ⟨h1, h2⟩
  | clickOverlay =>
      simp only [stepEv] at hst
      split_ifs at hst with hov hrm
      · injection hst with hst
        rw [← hst]
        exact tidAvoid_showAllInstantly ⟨h1, h2⟩
      · injection hst with hst
        rw [← hst]
        exact tidAvoid_play ⟨h1, h2⟩
  | changeSpeed v =>
      simp only [stepEv] at hst
      injection hst with hst
      rw [← hst]
      exact tidAvoid_changeSpeed ⟨h1, h2⟩

theorem tidAvoid_run {d : Demo} {t : Nat} :
    ∀ (evs : List Ev) (s s' : CState), TidAvoid t s → run d evs s = some s' → TidAvoid t s' := by
  intro evs
  induction evs with
  | nil =>
      intro s s' h hr
      simp [run] at hr
      rw [← hr]
      exact h
  | cons ev rest ih =>
      intro s s' h hr
      simp only [run] at hr
      cases hst : stepEv d ev s with
      | none => rw [hst] at hr; simp at hr
      | some smid =>
          rw [hst] at hr
          rw [Option.some_bind] at hr
          exact ih smid s' (tidAvoid_stepEv h hst) hr


theorem cleanInv_advance {d : Demo} {s : CState} (h : CleanInv s)
    (hp : s.pending = []) (hplay : s.isPlaying = true) (hpause : s.isPaused = false)
    (hstart : s.hasStarted = true) (hfad : s.fading = false) :
    CleanInv (advanceToNextScenario d s) := by
  obtain ⟨hfresh, hsing, hov, hps, hpp⟩ := h
  unfold advanceToNextScenario setAnimationTimeout setTimeoutCb startTimer
  dsimp only
  refine ⟨?_, ?_, hov, hps, hpp⟩
  · intro tm hm
    simp only [hp, List.nil_append, List.mem_singleton] at hm
    rw [hm]
    show s.nextTid < s.nextTid + 1
    omega
  · right
    refine ⟨⟨s.nextTid, s.now + d.cfg.upNextDelay / s.speed,
      TimerCb.upNext ((scenarioOrder d).getD
        (((scenarioOrder d).indexOf s.currentScenario + 1) % (scenarioOrder d).length) "")⟩,
      by simp [hp], ?_⟩
    simp [tmOK, hplay, hpause, hstart, hfad]


theorem cleanInv_sched {s : CState} {delay : ℚ}
    (hp : s.pending = []) (hplay : s.isPlaying = true) (hpause : s.isPaused = false)
    (hstart : s.hasStarted = true) (hfad : s.fading = false)
    (hov : s.overlayHidden = false → s.hasStarted = false) :
    CleanInv (setAnimationTimeout s TimerCb.showNext delay) := by
  unfold setAnimationTimeout setTimeoutCb
  dsimp only
  refine ⟨?_, ?_, hov, by simp [hstart], by simp [hplay]⟩
  · intro tm hm
    simp only [hp, List.nil_append, List.mem_singleton] at hm
    rw [hm]
    show s.nextTid < s.nextTid + 1
    omega
  · right
    refine ⟨⟨s.nextTid, s.now + delay, TimerCb.showNext⟩, by simp [hp], ?_⟩
    simp [tmOK, hplay, hpause, hstart, hfad]

theorem cleanInv_showNextStep {d : Demo} {s : CState} (h : CleanInv s)
    (hp : s.pending = []) (hplay : s.isPlaying = true) (hpause : s.isPaused = false)
    (hstart : s.hasStarted = true) (hfad : s.fading = false) :
    CleanInv (showNextStep d s) := by
  obtain ⟨hfresh, hsing, hov, hps, hpp⟩ := h
  unfold showNextStep stopTimer appendStepElement updateButtonStates
  dsimp only
  split_ifs with hc1 hc2 hc3 hc4 hc5
  · exact cleanInv_advance (d := d) ⟨hfresh, hsing, hov, hps, hpp⟩ hp hplay hpause hstart hfad
  · exact ⟨hfresh, Or.inl hp, hov, by simp, by simp [hpause]⟩
  · exact absurd hc3 (by simp [hpause])
  · exact cleanInv_sched hp hplay hpause hstart hfad hov
  · exact cleanInv_advance (d := d) ⟨hfresh, Or.inl hp, hov, hps, hpp⟩ hp hplay hpause hstart hfad
  · exact ⟨hfresh, Or.inl hp, hov, by simp, by simp [hpause]⟩


theorem stored_of_cleanInv {s : CState}
    (hsing : s.pending = [] ∨ ∃ tm, s.pending = [tm] ∧ tmOK s tm) (hfad : s.fading = false) :
    s.pending = [] ∨ ∃ tm, s.pending = [tm] ∧ s.animationTimeout = some tm.tid := by
  rcases hsing with hp | ⟨tm, hp, hok⟩
  · exact Or.inl hp
  · right
    refine ⟨tm, hp, ?_⟩
    cases hcb : tm.cb with
    | showNext => simp only [tmOK, hcb] at hok; exact hok.1
    | upNext nid => simp only [tmOK, hcb] at hok; exact hok.1
    | advFade nid => simp only [tmOK, hcb] at hok; rw [hok] at hfad; simp at hfad
    | tabFade nid wasP => simp only [tmOK, hcb] at hok; rw [hok] at hfad; simp at hfad

theorem cleanInv_play {d : Demo} {s : CState} (h : CleanInv s)
    (hp : s.pending = []) (hfad : s.fading = false) :
    CleanInv (play d s) := by
  obtain ⟨hfresh, hsing, hov, hps, hpp⟩ := h
  unfold play appendStepElement updateButtonStates clearChatMessages startTimer
  dsimp only
  split_ifs with hc1 hc2 hc3 hc4 hc5
  · exact cleanInv_sched hp rfl rfl rfl hfad (by simp)
  · exact cleanInv_sched hp rfl rfl rfl hfad (by simp)
  · have hstart : s.hasStarted = true := by revert hc1; cases s.hasStarted <;> simp
    have hplay : s.isPlaying = true := hpp hc3
    exact cleanInv_showNextStep (d := d)
      ⟨hfresh, Or.inl hp, hov, hps, by simp⟩ hp hplay rfl hstart hfad
  · exact ⟨hfresh, Or.inl hp, hov, hps, hpp⟩
  · have hstart : s.hasStarted = true := by revert hc1; cases s.hasStarted <;> simp
    exact cleanInv_sched hp rfl rfl hstart hfad hov
  · have hstart : s.hasStarted = true := by revert hc1; cases s.hasStarted <;> simp
    exact cleanInv_showNextStep (d := d)
      ⟨hfresh, Or.inl hp, hov, by simp [hstart], by simp⟩ hp rfl rfl hstart hfad

theorem cleanInv_pause {d : Demo} {s : CState} (h : CleanInv s)
    (hplay : s.isPlaying = true) (hfad : s.fading = false) :
    CleanInv (pause d s) := by
  obtain ⟨hfresh, hsing, hov, hps, hpp⟩ := h
  have hstored := stored_of_cleanInv hsing hfad
  unfold pause updateButtonStates stopTimer clearAnimationTimeout
  dsimp only
  cases hA : s.animationTimeout with
  | none =>
      have hpend : s.pending = [] := by
        rcases hstored with hp | ⟨tm, hp, hst⟩
        · exact hp
        · rw [hA] at hst; simp at hst
      exact ⟨hfresh, Or.inl hpend, hov, by simp [hps hplay], by simp [hplay]⟩
  | some tid =>
      have hpend : s.pending.filter (fun tm => tm.tid ≠ tid) = [] := by
        rcases hstored with hp | ⟨tm, hp, hst⟩
        · rw [hp]; rfl
        · rw [hA] at hst
          injection hst with hst
          rw [hp, hst]
          simp [List.filter]
      refine ⟨?_, Or.inl hpend, hov, by simp [hps hplay], by simp [hplay]⟩
      intro tm hm
      dsimp only at hm
      rw [hpend] at hm
      simp at hm

theorem cleanInv_showInitialPreview {d : Demo} {s : CState} (h : CleanInv s)
    (hp : s.pending = []) (hplay : s.isPlaying = false) (hpause : s.isPaused = false) :
    CleanInv (showInitialPreview d s) := by
  obtain ⟨hfresh, hsing, hov, hps, hpp⟩ := h
  unfold showInitialPreview appendStepElement updateButtonStates
  dsimp only
  split_ifs with hc
  · exact ⟨hfresh, Or.inl hp, by simp, by simp [hplay], by simp [hpause]⟩
  · exact ⟨hfresh, Or.inl hp, by simp, by simp [hplay], by simp [hpause]⟩

theorem cleanInv_showAllInstantly {d : Demo} {s : CState} (h : CleanInv s)
    (hp : s.pending = []) (hpause : s.isPaused = false) :
    CleanInv (showAllInstantly d s) := by
  obtain ⟨hfresh, hsing, hov, hps, hpp⟩ := h
  unfold showAllInstantly updateButtonStates clearChatMessages
  dsimp only
  exact ⟨hfresh, Or.inl hp, by simp, by simp, by simp [hpause]⟩


theorem cleanInv_switchToScenario {d : Demo} {s : CState} {id : String} (h : CleanInv s)
    (hfad : s.fading = false) : CleanInv (switchToScenario d s id) := by
  obtain ⟨hfresh, hsing, hov, hps, hpp⟩ := h
  have hstored := stored_of_cleanInv hsing hfad
  unfold switchToScenario clearChatMessages stopTimer clearAnimationTimeout
  dsimp only
  cases hA : s.animationTimeout with
  | none =>
      have hpend : s.pending = [] := by
        rcases hstored with hp | ⟨tm, hp, hst⟩
        · exact hp
        · rw [hA] at hst; simp at hst
      exact cleanInv_showInitialPreview (d := d)
        ⟨hfresh, Or.inl hpend, by simp, by simp, by simp⟩ hpend rfl rfl
  | some tid =>
      have hpend : s.pending.filter (fun tm => tm.tid ≠ tid) = [] := by
        rcases hstored with hp | ⟨tm, hp, hst⟩
        · rw [hp]; rfl
        · rw [hA] at hst
          injection hst with hst
          rw [hp, hst]
          simp [List.filter]
      refine cleanInv_showInitialPreview (d := d)
        ⟨?_, Or.inl hpend, by simp, by simp, by simp⟩ hpend rfl rfl
      intro tm hm
      dsimp only at hm
      rw [hpend] at hm
      simp at hm

theorem cleanInv_switchTab {d : Demo} {s : CState} {id : String} (h : CleanInv s)
    (hfad : s.fading = false) : CleanInv (switchTab d s id) := by
  obtain ⟨hfresh, hsing, hov, hps, hpp⟩ := h
  have hstored := stored_of_cleanInv hsing hfad
  unfold switchTab setTimeoutCb stopTimer clearAnimationTimeout
  dsimp only
  split_ifs with hc
  · exact ⟨hfresh, hsing, hov, hps, hpp⟩
  · cases hA : s.animationTimeout with
    | none =>
        have hpend : s.pending = [] := by
          rcases hstored with hp | ⟨tm, hp, hst⟩
          · exact hp
          · rw [hA] at hst; simp at hst
        refine ⟨?_, ?_, hov, hps, hpp⟩
        · intro tm hm
          simp only [hpend, List.nil_append, List.mem_singleton] at hm
          rw [hm]
          show s.nextTid < s.nextTid + 1
          omega
        · right
          refine ⟨⟨s.nextTid, s.now + 300, TimerCb.tabFade id (s.isPlaying && !s.isPaused)⟩,
            by simp [hpend], ?_⟩
          simp [tmOK]
    | some tid =>
        have hpend : s.pending.filter (fun tm => tm.tid ≠ tid) = [] := by
          rcases hstored with hp | ⟨tm, hp, hst⟩
          · rw [hp]; rfl
          · rw [hA] at hst
            injection hst with hst
            rw [hp, hst]
            simp [List.filter]
        refine ⟨?_, ?_, hov, hps, hpp⟩
        · intro tm hm
          dsimp only at hm
          rw [hpend] at hm
          simp only [List.nil_append, List.mem_singleton] at hm
          rw [hm]
          show s.nextTid < s.nextTid + 1
          omega
        · right
          refine ⟨⟨s.nextTid, s.now + 300, TimerCb.tabFade id (s.isPlaying && !s.isPaused)⟩,
            ?_, ?_⟩
          · dsimp only
            rw [hpend]
            exact List.nil_append _
          · simp [tmOK]

theorem cleanInv_upNextCb {d : Demo} {s : CState} {id : String} (h : CleanInv s)
    (hp : s.pending = []) : CleanInv (upNextCb d s id) := by
  obtain ⟨hfresh, hsing, hov, hps, hpp⟩ := h
  unfold upNextCb setTimeoutCb stopTimer
  dsimp only
  refine ⟨?_, ?_, hov, hps, hpp⟩
  · intro tm hm
    simp only [hp, List.nil_append, List.mem_singleton] at hm
    rw [hm]
    show s.nextTid < s.nextTid + 1
    omega
  · right
    refine ⟨⟨s.nextTid, s.now + 300, TimerCb.advFade id⟩, by simp [hp], ?_⟩
    simp [tmOK]

theorem cleanInv_advFadeCb {d : Demo} {s : CState} {id : String} (h : CleanInv s)
    (hp : s.pending = []) : CleanInv (advFadeCb d s id) := by
  obtain ⟨hfresh, hsing, hov, hps, hpp⟩ := h
  unfold advFadeCb clearChatMessages
  dsimp only
  exact cleanInv_play (d := d) ⟨hfresh, Or.inl hp, by simp, by simp, by simp⟩ hp rfl

theorem showInitialPreview_pending (d : Demo) (s : CState) :
    (showInitialPreview d s).pending = s.pending := by
  unfold showInitialPreview appendStepElement updateButtonStates
  dsimp only
  split_ifs <;> rfl

theorem showInitialPreview_fading (d : Demo) (s : CState) :
    (showInitialPreview d s).fading = s.fading := by
  unfold showInitialPreview appendStepElement updateButtonStates
  dsimp only
  split_ifs <;> rfl

theorem cleanInv_tabFadeCb {d : Demo} {s : CState} {id : String} {wasP : Bool} (h : CleanInv s)
    (hp : s.pending = []) : CleanInv (tabFadeCb d s id wasP) := by
  obtain ⟨hfresh, hsing, hov, hps, hpp⟩ := h
  unfold tabFadeCb clearChatMessages
  dsimp only
  split_ifs with hc1 hc2
  · exact cleanInv_showAllInstantly (d := d)
      ⟨hfresh, Or.inl hp, by simp, by simp, by simp⟩ hp rfl
  · refine cleanInv_play (d := d)
      (cleanInv_showInitialPreview (d := d)
        ⟨hfresh, Or.inl hp, by simp, by simp, by simp⟩ hp rfl rfl) ?_ ?_
    · rw [showInitialPreview_pending]
      exact hp
    · rw [showInitialPreview_fading]
  · exact cleanInv_showInitialPreview (d := d)
      ⟨hfresh, Or.inl hp, by simp, by simp, by simp⟩ hp rfl rfl


theorem cleanInv_changeSpeed {d : Demo} {s : CState} {v : ℚ} (h : CleanInv s)
    (hfad : s.fading = false) : CleanInv (changeSpeed d s v) := by
  obtain ⟨hfresh, hsing, hov, hps, hpp⟩ := h
  have hstored := stored_of_cleanInv hsing hfad
  unfold changeSpeed
  dsimp only
  split_ifs with hc1 hc2
  · obtain ⟨hplay, hpause, hsome, hbase⟩ := hc1
    have hpause2 : s.isPaused = false := by simpa using hpause
    apply cleanInv_sched
    · rcases hstored with hp | ⟨tm, hp, hst⟩
      · show s.pending.filter _ = []
        rw [hp]
        rfl
      · show s.pending.filter (fun x => x.tid ≠ s.animationTimeout.getD 0) = []
        rw [hp, hst]
        simp [List.filter]
    · exact hplay
    · exact hpause2
    · exact hps hplay
    · exact hfad
    · exact hov
  · exact ⟨hfresh, hsing, hov, hps, hpp⟩
  · exact ⟨hfresh, hsing, hov, hps, hpp⟩


theorem cleanInv_stepEvClean {d : Demo} {ev : Ev} {s s' : CState}
    (h : CleanInv s) (hst : stepEvClean d ev s = some s') : CleanInv s' := by
  obtain ⟨hfresh, hsing, hov, hps, hpp⟩ := h
  cases ev with
  | tick t2 =>
      have hst2 : stepEv d (Ev.tick t2) s = some s' := by
        simpa [stepEvClean, isUiEv] using hst
      simp only [stepEv] at hst2
      split_ifs at hst2
      injection hst2 with hst2
      rw [← hst2]
      exact ⟨hfresh, hsing, hov, hps, hpp⟩
  | fire =>
      have hst2 : stepEv d Ev.fire s = some s' := by
        simpa [stepEvClean, isUiEv] using hst
      rcases hsing with hp | ⟨tm, hp, hok⟩
      · rw [stepEv] at hst2
        rw [hp] at hst2
        simp [earliest] at hst2
      · rw [stepEv] at hst2
        rw [hp] at hst2
        simp only [earliest, Option.some.injEq] at hst2
        rw [← hst2]
        have hfl : ([tm].filter (fun x => x.tid ≠ tm.tid)) = [] := by simp
        have hinv : CleanInv { s with now := tm.due, pending := [tm].filter (fun x => x.tid ≠ tm.tid) } := by
          refine ⟨?_, Or.inl hfl, hov, hps, hpp⟩
          intro x hx
          dsimp only at hx
          rw [hfl] at hx
          simp at hx
        cases hcb : tm.cb with
        | showNext =>
            simp only [tmOK, hcb] at hok
            obtain ⟨hstA, hplayA, hpauseA, hstartA, hfadA⟩ := hok
            exact cleanInv_showNextStep (d := d) hinv hfl hplayA hpauseA hstartA hfadA
        | upNext nid => exact cleanInv_upNextCb (d := d) hinv hfl
        | advFade nid => exact cleanInv_advFadeCb (d := d) hinv hfl
        | tabFade nid wasP => exact cleanInv_tabFadeCb (d := d) hinv hfl
  | clickPlayPause =>
      simp only [stepEvClean, isUiEv, Bool.true_and] at hst
      split_ifs at hst with hfad
      have hfad2 : s.fading = false := by simpa using hfad
      simp only [stepEv] at hst
      split_ifs at hst with hbtn
      injection hst with hst
      rw [← hst]
      unfold togglePlayPause
      split_ifs with hc
      · have hplay : s.isPlaying = true := by
          revert hc
          cases s.isPlaying <;> simp
        exact cleanInv_pause (d := d) ⟨hfresh, hsing, hov, hps, hpp⟩ hplay hfad2
      · have hpend : s.pending = [] := by
          rcases hsing with hp | ⟨tm, hp, hok⟩
          · exact hp
          · exfalso
            cases hcb : tm.cb with
            | showNext =>
                simp only [tmOK, hcb] at hok
                exact hc (by simp [hok.2.1, hok.2.2.1])
            | upNext nid =>
                simp only [tmOK, hcb] at hok
                exact hc (by simp [hok.2.1, hok.2.2.1])
            | advFade nid =>
                simp only [tmOK, hcb] at hok
                rw [hok] at hfad2
                simp at hfad2
            | tabFade nid wasP =>
                simp only [tmOK, hcb] at hok
                rw [hok] at hfad2
                simp at hfad2
        exact cleanInv_play (d := d) ⟨hfresh, hsing, hov, hps, hpp⟩ hpend hfad2
  | clickReset =>
      simp only [stepEvClean, isUiEv, Bool.true_and] at hst
      split_ifs at hst with hfad
      simp only [stepEv] at hst
      injection hst with hst
      rw [← hst]
      exact cleanInv_switchToScenario (d := d) ⟨hfresh, hsing, hov, hps, hpp⟩ (by simpa using hfad)
  | clickTab id =>
      simp only [stepEvClean, isUiEv, Bool.true_and] at hst
      split_ifs at hst with hfad
      simp only [stepEv] at hst
      split_ifs at hst with hid
      injection hst with hst
      rw [← hst]
      exact cleanInv_switchTab (d := d) ⟨hfresh, hsing, hov, hps, hpp⟩ (by simpa using hfad)
  | clickOverlay =>
      simp only [stepEvClean, isUiEv, Bool.true_and] at hst
      split_ifs at hst with hfad
      have hfad2 : s.fading = false := by simpa using hfad
      simp only [stepEv] at hst
      split_ifs at hst with hovr hrm
      all_goals
        have hovf : s.overlayHidden = false := by simpa using hovr
      all_goals
        have hns : s.hasStarted = false := hov hovf
      all_goals
        have hnq : s.isPaused = false := by
          cases hb : s.isPaused with
          | false => rfl
          | true =>
              have h2 := hps (hpp hb)
              rw [h2] at hns
              simp at hns
      all_goals
        have hpend : s.pending = [] := by
          rcases hsing with hp | ⟨tm, hp, hok⟩
          · exact hp
          · exfalso
            cases hcb : tm.cb with
            | showNext =>
                simp only [tmOK, hcb] at hok
                rw [hok.2.2.2.1] at hns
                simp at hns
            | upNext nid =>
                simp only [tmOK, hcb] at hok
                rw [hok.2.2.2.1] at hns
                simp at hns
            | advFade nid =>
                simp only [tmOK, hcb] at hok
                rw [hok] at hfad2
                simp at hfad2
            | tabFade nid wasP =>
                simp only [tmOK, hcb] at hok
                rw [hok] at hfad2
                simp at hfad2
      · injection hst with hst
        rw [← hst]
        exact cleanInv_showAllInstantly (d := d) ⟨hfresh, hsing, hov, hps, hpp⟩ hpend hnq
      · injection hst with hst
        rw [← hst]
        exact cleanInv_play (d := d) ⟨hfresh, hsing, hov, hps, hpp⟩ hpend hfad2
  | changeSpeed v =>
      simp only [stepEvClean, isUiEv, Bool.true_and] at hst
      split_ifs at hst with hfad
      simp only [stepEv] at hst
      injection hst with hst
      rw [← hst]
      exact cleanInv_changeSpeed (d := d) ⟨hfresh, hsing, hov, hps, hpp⟩ (by simpa using hfad)


theorem showInitialPreview_nextTid (d : Demo) (s : CState) :
    (showInitialPreview d s).nextTid = s.nextTid := by
  unfold showInitialPreview appendStepElement updateButtonStates
  dsimp only
  split_ifs <;> rfl

theorem cleanInv_init (d : Demo) : CleanInv (initState d) := by
  have hblank : CleanInv (blankState d) := by
    refine ⟨?_, Or.inl rfl, fun _ => rfl, by simp [blankState], by simp [blankState]⟩
    intro tm hm
    simp [blankState] at hm
  have hprev := cleanInv_showInitialPreview (d := d) hblank rfl rfl rfl
  unfold initState
  dsimp only
  split_ifs with hc
  · refine cleanInv_showAllInstantly (d := d) hprev ?_ ?_
    · rw [showInitialPreview_pending]
      rfl
    · unfold showInitialPreview appendStepElement updateButtonStates
      dsimp only
      split_ifs <;> rfl
  · exact hprev

theorem cleanInv_runClean {d : Demo} :
    ∀ (evs : List Ev) (s s' : CState), CleanInv s → runClean d evs s = some s' → CleanInv s' := by
  intro evs
  induction evs with
  | nil =>
      intro s s' h hr
      simp [runClean] at hr
      rw [← hr]
      exact h
  | cons ev rest ih =>
      intro s s' h hr
      simp only [runClean] at hr
      cases hst : stepEvClean d ev s with
      | none => rw [hst] at hr; simp at hr
      | some smid =>
          rw [hst] at hr
          rw [Option.some_bind] at hr
          exact ih smid s' (cleanInv_stepEvClean h hst) hr

theorem clear_pending_known {s : CState} {tm : Timer} (hp : s.pending = [tm])
    (hstored : s.animationTimeout = some tm.tid) :
    (clearAnimationTimeout s).pending = [] := by
  unfold clearAnimationTimeout
  rw [hstored]
  dsimp only
  rw [hp]
  simp [List.filter]

theorem clearAnimationTimeout_nextTid (s : CState) :
    (clearAnimationTimeout s).nextTid = s.nextTid := by
  unfold clearAnimationTimeout
  cases s.animationTimeout <;> rfl


theorem switchToScenario_pending (d : Demo) (s : CState) (id : String) :
    (switchToScenario d s id).pending = (clearAnimationTimeout (stopTimer s)).pending := by
  unfold switchToScenario clearChatMessages
  dsimp only
  rw [showInitialPreview_pending]

theorem switchToScenario_nextTid (d : Demo) (s : CState) (id : String) :
    (switchToScenario d s id).nextTid = s.nextTid := by
  unfold switchToScenario clearChatMessages
  dsimp only
  rw [showInitialPreview_nextTid]
  show (clearAnimationTimeout (stopTimer s)).nextTid = s.nextTid
  rw [clearAnimationTimeout_nextTid]
  rfl

theorem pause_pending {d : Demo} {s : CState} {tm : Timer} (hp : s.pending = [tm])
    (hstored : s.animationTimeout = some tm.tid) : (pause d s).pending = [] := by
  unfold pause updateButtonStates stopTimer clearAnimationTimeout
  dsimp only
  rw [hstored]
  dsimp only
  rw [hp]
  simp [List.filter]

theorem pause_nextTid (d : Demo) (s : CState) : (pause d s).nextTid = s.nextTid := by
  unfold pause updateButtonStates stopTimer clearAnimationTimeout
  dsimp only
  cases s.animationTimeout <;> rfl

theorem cancel_avoids {d : Demo} {s s' : CState} {ev : Ev} {tm : Timer}
    (hp : s.pending = [tm]) (hstored : s.animationTimeout = some tm.tid)
    (hfr : tm.tid < s.nextTid)
    (hcancel : isCancelEv ev s) (hst : stepEv d ev s = some s') :
    TidAvoid tm.tid s' := by
  rcases hcancel with hev | ⟨id, hev, hne⟩ | ⟨hev, hplay, hpause⟩
  · subst hev
    simp only [stepEv] at hst
    injection hst with hst
    rw [← hst]
    unfold reset
    constructor
    · show tm.tid < (switchToScenario d s s.currentScenario).nextTid
      rw [switchToScenario_nextTid]
      exact hfr
    · show tm.tid ∉ pendingTids (switchToScenario d s s.currentScenario)
      unfold pendingTids
      rw [switchToScenario_pending]
      rw [clear_pending_known (s := stopTimer s) hp hstored]
      simp
  · subst hev
    simp only [stepEv] at hst
    split_ifs at hst with hid
    injection hst with hst
    rw [← hst]
    unfold switchTab setTimeoutCb stopTimer
    dsimp only
    rw [if_neg hne]
    constructor
    · show tm.tid < (clearAnimationTimeout s).nextTid + 1
      rw [clearAnimationTimeout_nextTid]
      omega
    · unfold pendingTids
      dsimp only
      rw [clear_pending_known (s := s) hp hstored]
      simp only [List.nil_append, List.map_cons, List.map_nil, List.mem_singleton]
      have : tm.tid ≠ (clearAnimationTimeout s).nextTid := by
        rw [clearAnimationTimeout_nextTid]
        omega
      simpa using this
  · subst hev
    simp only [stepEv] at hst
    split_ifs at hst with hbtn
    injection hst with hst
    rw [← hst]
    unfold togglePlayPause
    rw [if_pos (by simp [hplay, hpause])]
    constructor
    · show tm.tid < (pause d s).nextTid
      rw [pause_nextTid]
      exact hfr
    · show tm.tid ∉ pendingTids (pause d s)
      unfold pendingTids
      rw [pause_pending hp hstored]
      simp


/-- **C3** (amended: restricted to clean executions, where no UI event is
delivered during a fade transition window).  (i) At every reachable
instant at most one reveal timeout is outstanding.  (ii) After any of
`pause()`, `reset()`, or a scenario switch returns, a reveal timeout that
was scheduled before that call never fires: its timer id is absent from
the pending queue in every later state, under arbitrary further events. -/
theorem C3_single_timer (d : Demo) :
    (∀ (evs : List Ev) (s : CState),
        runClean d evs (initState d) = some s → revealCount s ≤ 1) ∧
    (∀ (evs1 : List Ev) (s : CState),
        runClean d evs1 (initState d) = some s →
        ∀ (tm : Timer), tm ∈ s.pending → tm.cb = TimerCb.showNext →
        ∀ (ev : Ev) (s' : CState), isCancelEv ev s → stepEv d ev s = some s' →
        ∀ (evs2 : List Ev) (s'' : CState), run d evs2 s' = some s'' →
          tm.tid ∉ pendingTids s'') := by
  constructor
  · intro evs s hr
    have h := cleanInv_runClean evs (initState d) s (cleanInv_init d) hr
    rcases h.2.1 with hp | ⟨tm, hp, _⟩
    · simp [revealCount, hp]
    · simp only [revealCount, hp]
      exact le_trans (List.length_filter_le _ _) (by simp)
  · intro evs1 s hr tm hmem hcb ev s' hcancel hst evs2 s'' hr2
    have h := cleanInv_runClean evs1 (initState d) s (cleanInv_init d) hr
    obtain ⟨hfresh, hsing, _⟩ := h
    rcases hsing with hp | ⟨tm', hp, hok⟩
    · rw [hp] at hmem
      simp at hmem
    · rw [hp] at hmem
      simp at hmem
      subst hmem
      have hstored : s.animationTimeout = some tm.tid := by
        simp only [tmOK, hcb] at hok
        exact hok.1
      have hfr : tm.tid < s.nextTid := hfresh tm (by rw [hp]; simp)
      have havoid := cancel_avoids hp hstored hfr hcancel hst
      exact (tidAvoid_run evs2 s' s'' havoid hr2).2

set_option maxRecDepth 400000 in
/-- **C3 counterexample** (original claim): on `demoRace`, the trace that
resumes playback during the 300 ms tab-fade window ends with two reveal
timeouts outstanding, because the fade callback does not cancel timers
armed during the fade. -/
theorem C3_single_timer_cex :
    ¬ (∀ (evs : List Ev) (s : CState),
        run demoRace evs (initState demoRace) = some s → revealCount s ≤ 1) := by
  intro h
  have := h raceTrace ((run demoRace raceTrace (initState demoRace)).getD (blankState demoRace))
  revert this
  decide

set_option maxRecDepth 400000 in
/-- Witness for C3: on the two-scenario demo, after clicking the overlay at
most one reveal is pending, and the reveal armed there is gone for good
after the pause click. -/
theorem C3_single_timer_witness :
    revealCount c3sA ≤ 1 ∧ (0 : Nat) ∉ pendingTids c3sB := by
  have h := C3_single_timer demoAB
  refine ⟨h.1 [Ev.clickOverlay] c3sA (by decide), ?_⟩
  exact h.2 [Ev.clickOverlay] c3sA (by decide) ⟨0, 3000, TimerCb.showNext⟩
    (by decide) rfl Ev.clickPlayPause c3sB
    (Or.inr (Or.inr ⟨rfl, by decide, by decide⟩)) (by decide) [] c3sB (by decide)

end ConvReplay
